import Mathlib

/-!
Verification of the transaction execution and confirmation-tracking engine
of the S3 repository (src/core/transaction.js and src/core/vote.js).

The JavaScript source is shallowly embedded below.  Network calls
(provider.getTransactionReceipt, provider.getBlockNumber, Date.now, the
wallet operations) are modelled as explicit oracle functions supplied in
environment structures; a call that may throw is modelled with Except.
Machine values: transaction hashes are strings, block numbers, gas
quantities and times are Nat (ethers BigNumber values are arbitrary
precision non-negative integers here), and the one signed computation in
the source (currentBlock - receipt.blockNumber + 1) is carried out in Int
exactly as JavaScript number arithmetic would before Math.max(_, 0).

The cooperative-concurrency semantics of the source (async callbacks
spawned by Promise.all) is embedded at two levels of fidelity.  In
transaction.js every per-entry confirmation callback catches all of its
own throws (retryGetReceipt swallows exceptions and the getBlockNumber
section sits in its own try/catch), so no callback can reject, each
round's await Promise.all is a strict synchronization barrier, and the
deterministic array-order schedule is faithful; the synchronous prefix of
each callback (in particular the getNextPublicProvider call) indeed runs
in array order in JavaScript.  In vote.js the per-entry callbacks call
provider.getTransactionReceipt and provider.getBlockNumber with no
per-callback catch: one rejection makes the round's await Promise.all
throw into the outer catch while the sibling callbacks keep running into
later rounds (JavaScript promises are not cancelled), so rounds can
overlap.  vote.js is therefore modelled twice: a round-sequential model
(voteStep, voteWaitForAllConfirmations), exact for executions in which no
provider call throws, and a small-step interleaving model (voteSmallStep,
voteRun) in which suspended callbacks from earlier rounds survive a
rejected round and can still mutate the pending map and the confirmed
list later.
-/

namespace S3

abbrev TxHash := String

/-- Transaction receipt as used by the source: blockNumber is a plain
JavaScript number field (possibly absent), gasUsed and effectiveGasPrice
are BigNumber fields (possibly absent), status is the success flag. -/
structure Receipt where
  blockNumber : Option Nat
  gasUsed : Option Nat
  effectiveGasPrice : Option Nat
  status : Bool
deriving Repr, DecidableEq

/-- JavaScript truthiness of receipt.blockNumber: the field is a plain
number, so it is falsy when absent and also when equal to 0.  Both
trackers test (!receipt || !receipt.blockNumber). -/
def Receipt.truthyBlockNumber (r : Receipt) : Option Nat :=
  match r.blockNumber with
  | none => none
  | some b => if b = 0 then none else some b

/-- One entry of the transactions array handed to waitForAllConfirmations:
{ hash, walletIndex }. -/
structure TxRef where
  hash : TxHash
  walletIndex : Nat
deriving Repr, DecidableEq

/-- Value stored in the confirmationStates Map:
{ confirmations: 0, walletIndex }.  The confirmations field is written
once at construction and never updated by the source (each round computes
the depth locally), which the embedding mirrors. -/
structure TxState where
  confirmations : Nat
  walletIndex : Nat
deriving Repr, DecidableEq

/-- Entry pushed onto confirmedReceipts: { receipt, walletIndex }. -/
structure ConfirmedEntry where
  receipt : Receipt
  walletIndex : Nat
deriving Repr, DecidableEq

/-! ## Endpoint rotator (transaction.js, getNextPublicProvider) -/

def PROVIDER_SWITCH_INTERVAL : Nat := 30000

structure RotState where
  currentProviderIndex : Nat
  lastProviderChangeTime : Nat
deriving Repr, DecidableEq

/-- transaction.js getNextPublicProvider: advance to the next provider
index when more than PROVIDER_SWITCH_INTERVAL ms have elapsed since the
last change (Nat subtraction agrees with the JavaScript comparison since
a smaller current time makes the difference non-positive either way). -/
def getNextPublicProvider (numProviders : Nat) (currentTime : Nat) (s : RotState) :
    Nat × RotState :=
  if PROVIDER_SWITCH_INTERVAL < currentTime - s.lastProviderChangeTime then
    ((s.currentProviderIndex + 1) % numProviders,
      { currentProviderIndex := (s.currentProviderIndex + 1) % numProviders,
        lastProviderChangeTime := currentTime })
  else (s.currentProviderIndex, s)

/-! ## Receipt fetcher (transaction.js, retryGetReceipt)

The per-attempt oracle gives the result of provider.getTransactionReceipt
on each attempt: Except.error models a thrown transport error, Except.ok
none a null receipt.  The result records the list of sleep durations
performed and the returned value (none models the returned null). -/

def retryGetReceiptGo (oracle : Nat → Except Unit (Option Receipt)) (maxAttempts : Nat) :
    Nat → Nat → List Nat × Option Receipt
  | 0, _ => ([], none)
  | fuel + 1, attempt =>
    match oracle attempt with
    | Except.ok (some receipt) => ([], some receipt)
    | _ =>
      if attempt < maxAttempts then
        let pr := retryGetReceiptGo oracle maxAttempts fuel (attempt + 1)
        (2000 :: pr.1, pr.2)
      else ([], none)

def retryGetReceipt (oracle : Nat → Except Unit (Option Receipt)) (maxAttempts : Nat) :
    List Nat × Option Receipt :=
  retryGetReceiptGo oracle maxAttempts maxAttempts 1

/-! ## Confirmation trackers

Both waitForAllConfirmations functions share one loop shape: build a Map
keyed by transaction hash, then repeat rounds until the map is empty,
where a round processes every pending entry and either keeps it pending
or deletes it and pushes a confirmed entry.  The loop shape is factored
out below, parameterized over a per-entry step that threads auxiliary
state (the rotator state and Date.now counter for transaction.js, nothing
for vote.js). -/

inductive EntryOutcome where
  | keep
  | emit (r : Receipt)
deriving Repr, DecidableEq

/-- JavaScript new Map(entries) semantics: entries are inserted in order;
a later entry with an equal key overwrites the value in place (first
insertion position, last value). -/
def mapSet (m : List (TxHash × TxState)) (key : TxHash) (v : TxState) :
    List (TxHash × TxState) :=
  if m.any (fun p => p.1 == key) then
    m.map (fun p => if p.1 == key then (key, v) else p)
  else m ++ [(key, v)]

def buildConfirmationStates (txs : List TxRef) : List (TxHash × TxState) :=
  txs.foldl
    (fun m t => mapSet m t.hash { confirmations := 0, walletIndex := t.walletIndex }) []

/-- One round over a snapshot of the pending entries (the source iterates
Array.from(confirmationStates.entries())): returns the surviving entries,
the confirmed entries pushed this round (in entry order), and the updated
auxiliary state. -/
def roundGen {σ : Type} (step : σ → TxHash → EntryOutcome × σ) :
    List (TxHash × TxState) → σ →
      List (TxHash × TxState) × List ConfirmedEntry × σ
  | [], s => ([], [], s)
  | (h, st) :: rest, s =>
    let pr := step s h
    let rec2 := roundGen step rest pr.2
    match pr.1 with
    | EntryOutcome.keep => ((h, st) :: rec2.1, rec2.2.1, rec2.2.2)
    | EntryOutcome.emit r =>
        (rec2.1, { receipt := r, walletIndex := st.walletIndex } :: rec2.2.1, rec2.2.2)

/-- The while (confirmationStates.size > 0) loop.  The source polls with
no bound; the embedding takes polling fuel and returns none when the loop
is still running after that many rounds (the inter-round sleep(5000) is
not material to any claim and is not recorded). -/
def loopGen {σ : Type} (step : Nat → σ → TxHash → EntryOutcome × σ) :
    Nat → Nat → σ → List (TxHash × TxState) → List ConfirmedEntry →
      Option (List ConfirmedEntry)
  | 0, _, _, states, confirmed => if states.isEmpty then some confirmed else none
  | fuel + 1, round, s, states, confirmed =>
    if states.isEmpty then some confirmed
    else
      let pr := roundGen (step round) states s
      loopGen step fuel (round + 1) pr.2.2 pr.1 (confirmed ++ pr.2.1)

/-- The reachable loop configuration after n rounds, used to state
invariants that hold at every point of the polling loop. -/
def genRoundState {σ : Type} (step : Nat → σ → TxHash → EntryOutcome × σ) (round : Nat)
    (st : List (TxHash × TxState) × List ConfirmedEntry × σ) :
    List (TxHash × TxState) × List ConfirmedEntry × σ :=
  let pr := roundGen (step round) st.1 st.2.2
  (pr.1, st.2.1 ++ pr.2.1, pr.2.2)

def genIter {σ : Type} (step : Nat → σ → TxHash → EntryOutcome × σ) :
    Nat → Nat → (List (TxHash × TxState) × List ConfirmedEntry × σ) →
      List (TxHash × TxState) × List ConfirmedEntry × σ
  | 0, _, st => st
  | n + 1, round, st => genIter step n (round + 1) (genRoundState step round st)

/-! ### transaction.js tracker -/

/-- Environment of the transaction.js tracker.  candReceipt round ep h is
the value returned by retryGetReceipt(publicProviders[ep], h) during that
round (total: retryGetReceipt never throws); headBlock round ep is
publicProvider.getBlockNumber(), which may throw; mainReceipt round h is
retryGetReceipt(provider, h) against the authoritative endpoint; clock k
is the k-th Date.now() reading. -/
structure TrackEnv where
  numProviders : Nat
  clock : Nat → Nat
  candReceipt : Nat → Nat → TxHash → Option Receipt
  headBlock : Nat → Nat → Except Unit Nat
  mainReceipt : Nat → TxHash → Option Receipt

/-- Math.max(currentBlock - receipt.blockNumber + 1, 0), computed on
JavaScript numbers, here exactly on Int. -/
def jsConfirmations (head bn : Nat) : Int :=
  max ((head : Int) - (bn : Int) + 1) 0

/-- transaction.js lines 69-76: re-fetch the receipt from the
authoritative provider and accept it only when present with gasUsed and
effectiveGasPrice fields (BigNumber fields: truthy iff present). -/
def validateMain (env : TrackEnv) (round : Nat) (h : TxHash) : EntryOutcome :=
  match env.mainReceipt round h with
  | some mainR =>
    if mainR.gasUsed.isSome && mainR.effectiveGasPrice.isSome then EntryOutcome.emit mainR
    else EntryOutcome.keep
  | none => EntryOutcome.keep

/-- Per-entry body of one transaction.js confirmation round (lines
55-87): pick a provider from the rotator, fetch a candidate receipt, and
when it has a truthy blockNumber read the same provider's head block and
compare the computed depth against requiredConfirmations; a thrown
getBlockNumber lands in the inner catch and keeps the entry pending. -/
def txStep (env : TrackEnv) (required : Nat) (round : Nat)
    (s : Nat × RotState) (h : TxHash) : EntryOutcome × (Nat × RotState) :=
  let pr := getNextPublicProvider env.numProviders (env.clock s.1) s.2
  let s2 : Nat × RotState := (s.1 + 1, pr.2)
  match env.candReceipt round pr.1 h with
  | none => (EntryOutcome.keep, s2)
  | some r =>
    match r.truthyBlockNumber with
    | none => (EntryOutcome.keep, s2)
    | some bn =>
      match env.headBlock round pr.1 with
      | Except.error _ => (EntryOutcome.keep, s2)
      | Except.ok head =>
        if (required : Int) ≤ jsConfirmations head bn then
          (validateMain env round h, s2)
        else (EntryOutcome.keep, s2)

/-- transaction.js waitForAllConfirmations.  t0 is the module-load
Date.now() stored in lastProviderChangeTime. -/
def waitForAllConfirmations (env : TrackEnv) (txs : List TxRef)
    (required fuel t0 : Nat) : Option (List ConfirmedEntry) :=
  loopGen (txStep env required) fuel 0
    (0, { currentProviderIndex := 0, lastProviderChangeTime := t0 })
    (buildConfirmationStates txs) []

/-! ### vote.js tracker -/

/-- Environment of the vote.js tracker: a single provider whose
getTransactionReceipt and getBlockNumber calls may throw. -/
structure VoteEnv where
  receipt : Nat → TxHash → Except Unit (Option Receipt)
  headBlock : Nat → Except Unit Nat

/-- Per-entry body of one vote.js confirmation round (lines 27-46) under
the round-sequential schedule: fetch the receipt from the single
provider, and when it has a truthy blockNumber compare the computed depth
against requiredConfirmations; the confirmed entry reuses that same
receipt with no further validation.  A thrown call is mapped to keep
here, which is exact only for the transition of this entry in this round;
because the throw rejects the round's Promise.all while sibling callbacks
keep running into later rounds, the loop-level consequences of a throw
(overlapping rounds, possible double emission) are outside this
round-sequential model and are covered by voteSmallStep and voteRun
below. -/
def voteStep (venv : VoteEnv) (required : Nat) (round : Nat)
    (s : Unit) (h : TxHash) : EntryOutcome × Unit :=
  match venv.receipt round h with
  | Except.error _ => (EntryOutcome.keep, s)
  | Except.ok none => (EntryOutcome.keep, s)
  | Except.ok (some r) =>
    match r.truthyBlockNumber with
    | none => (EntryOutcome.keep, s)
    | some bn =>
      match venv.headBlock round with
      | Except.error _ => (EntryOutcome.keep, s)
      | Except.ok head =>
        if (required : Int) ≤ jsConfirmations head bn then (EntryOutcome.emit r, s)
        else (EntryOutcome.keep, s)

/-- vote.js waitForAllConfirmations under the round-sequential schedule:
exact for executions in which no provider call throws (every round's
Promise.all then resolves only after all of its callbacks finished, so
rounds never overlap); the general overlapping-round semantics is
voteRun below. -/
def voteWaitForAllConfirmations (venv : VoteEnv) (txs : List TxRef)
    (required fuel : Nat) : Option (List ConfirmedEntry) :=
  loopGen (voteStep venv required) fuel 0 () (buildConfirmationStates txs) []

/-! ### Small-step interleaving semantics of the vote.js loop

The vote.js per-entry callbacks have two suspension points, the
getTransactionReceipt await and the getBlockNumber await, and no
per-callback catch.  When one callback rejects, the round's await
Promise.all throws into the outer catch and, after the catch's sleep, the
loop snapshots the (unchanged) pending map for a new round while the
unfinished callbacks of the rejected round are still suspended; those
stale callbacks later resume and run their delete-and-push epilogue
against whatever state they then find (Map.delete of an absent key is a
no-op, Array.push is unconditional).  The model below makes every
suspension explicit and is driven by a schedule: an explicit list of
actions resolving which suspended callback resumes next and when the
driver loop proceeds. -/

inductive VStage where
  | fetchReceipt
  | fetchBlock (r : Receipt) (bn : Nat)
deriving Repr, DecidableEq

/-- A suspended vote.js confirmation callback: the entry it was spawned
for, the round that spawned it (indexing the provider oracles), and its
next suspension point. -/
structure VCallback where
  hash : TxHash
  walletIndex : Nat
  round : Nat
  stage : VStage
deriving Repr, DecidableEq

/-- Configuration of the vote.js loop: the pending Map, the confirmed
array, the suspended callbacks of earlier rounds (stale) and of the
current round, whether the current round's Promise.all has already
rejected, the round counter, and whether the while loop has exited. -/
structure VConfig where
  states : List (TxHash × TxState)
  confirmed : List ConfirmedEntry
  stale : List VCallback
  current : List VCallback
  rejected : Bool
  round : Nat
  done : Bool
deriving Repr, DecidableEq

inductive VAction where
  | advStale (i : Nat)
  | advCurrent (i : Nat)
  | nextRound
deriving Repr, DecidableEq

inductive VCallbackResult where
  | suspended (c : VCallback)
  | fulfilled (effect : Option (TxHash × ConfirmedEntry))
  | threw
deriving Repr, DecidableEq

/-- Resume one suspended callback until its next suspension point or its
end (vote.js lines 28-45): the receipt await yields a throw (rejecting
the promise), a pending verdict, or a receipt; a truthy blockNumber leads
to the getBlockNumber await; its result either throws or decides the
depth comparison, whose success runs the synchronous
confirmationStates.delete plus confirmedReceipts.push epilogue. -/
def advanceCallback (venv : VoteEnv) (required : Nat) (c : VCallback) : VCallbackResult :=
  match c.stage with
  | VStage.fetchReceipt =>
    match venv.receipt c.round c.hash with
    | Except.error _ => VCallbackResult.threw
    | Except.ok none => VCallbackResult.fulfilled none
    | Except.ok (some r) =>
      match r.truthyBlockNumber with
      | none => VCallbackResult.fulfilled none
      | some bn => VCallbackResult.suspended { c with stage := VStage.fetchBlock r bn }
  | VStage.fetchBlock r bn =>
    match venv.headBlock c.round with
    | Except.error _ => VCallbackResult.threw
    | Except.ok head =>
      if (required : Int) ≤ jsConfirmations head bn then
        VCallbackResult.fulfilled
          (some (c.hash, { receipt := r, walletIndex := c.walletIndex }))
      else VCallbackResult.fulfilled none

/-- One scheduler step.  advStale i and advCurrent i resume the i-th
suspended callback of the corresponding pool; a throw inside a
current-round callback marks the round's Promise.all rejected (a throw in
a stale callback hits an already-settled Promise.all and has no further
effect); a confirming callback deletes its hash from the pending Map
(a no-op when absent) and pushes unconditionally.  nextRound is the
driver: it may proceed once the current round's Promise.all has settled,
that is when all current callbacks fulfilled or one rejected; it then
exits the while loop if the pending Map is empty, and otherwise abandons
the unfinished current callbacks to the stale pool and snapshots the
pending Map for a new round.  Illegal actions are no-ops. -/
def voteSmallStep (venv : VoteEnv) (required : Nat) (cfg : VConfig) (a : VAction) :
    VConfig :=
  if cfg.done then cfg
  else
    match a with
    | VAction.advStale i =>
      match cfg.stale[i]? with
      | none => cfg
      | some c =>
        match advanceCallback venv required c with
        | VCallbackResult.suspended c2 => { cfg with stale := cfg.stale.set i c2 }
        | VCallbackResult.threw => { cfg with stale := cfg.stale.eraseIdx i }
        | VCallbackResult.fulfilled none => { cfg with stale := cfg.stale.eraseIdx i }
        | VCallbackResult.fulfilled (some (h, e)) =>
          { cfg with stale := cfg.stale.eraseIdx i,
                     states := cfg.states.filter (fun p => !(p.1 == h)),
                     confirmed := cfg.confirmed ++ [e] }
    | VAction.advCurrent i =>
      match cfg.current[i]? with
      | none => cfg
      | some c =>
        match advanceCallback venv required c with
        | VCallbackResult.suspended c2 => { cfg with current := cfg.current.set i c2 }
        | VCallbackResult.threw =>
          { cfg with current := cfg.current.eraseIdx i, rejected := true }
        | VCallbackResult.fulfilled none => { cfg with current := cfg.current.eraseIdx i }
        | VCallbackResult.fulfilled (some (h, e)) =>
          { cfg with current := cfg.current.eraseIdx i,
                     states := cfg.states.filter (fun p => !(p.1 == h)),
                     confirmed := cfg.confirmed ++ [e] }
    | VAction.nextRound =>
      if cfg.rejected || cfg.current.isEmpty then
        if cfg.states.isEmpty then { cfg with done := true }
        else
          { cfg with stale := cfg.stale ++ cfg.current,
                     current := cfg.states.map (fun p =>
                       { hash := p.1, walletIndex := p.2.walletIndex,
                         round := cfg.round + 1, stage := VStage.fetchReceipt }),
                     rejected := false,
                     round := cfg.round + 1 }
      else cfg

def voteInitConfig (txs : List TxRef) : VConfig :=
  { states := buildConfirmationStates txs, confirmed := [], stale := [], current := [],
    rejected := false, round := 0, done := false }

/-- Run the vote.js loop under an explicit schedule. -/
def voteRun (venv : VoteEnv) (required : Nat) (txs : List TxRef)
    (acts : List VAction) : VConfig :=
  acts.foldl (voteSmallStep venv required) (voteInitConfig txs)

/-! ## Fee ledger (walletFees) -/

abbrev FeeLedger := Nat → Nat

/-- Module-level const walletFees = new Map(): empty, and every read in
the source goes through walletFees.get(w) with a BigNumber.from(0)
fallback, so the ledger is a total function defaulting to zero. -/
def walletFeesInit : FeeLedger := fun _ => 0

/-- transaction.js lines 131-143, body of the confirmedReceipts.forEach:
guard receipt && receipt.gasUsed && receipt.effectiveGasPrice, then
walletFees.set(w, (walletFees.get(w) or 0) + gasUsed * effectiveGasPrice);
otherwise log and leave the ledger unchanged.  The surrounding try/catch
cannot fire in the embedding because every operation here is total. -/
def txFeeStep (fees : FeeLedger) (cr : Option Receipt × Nat) : FeeLedger :=
  match cr.1 with
  | some r =>
    match r.gasUsed, r.effectiveGasPrice with
    | some g, some p => fun w => if w = cr.2 then fees cr.2 + g * p else fees w
    | _, _ => fees
  | none => fees

def txFeeAccount (fees : FeeLedger) (crs : List (Option Receipt × Nat)) : FeeLedger :=
  crs.foldl txFeeStep fees

/-- vote.js lines 92-96, body of the confirmedReceipts.forEach: no guard
at all; receipt.gasUsed.mul(receipt.effectiveGasPrice) throws a TypeError
when either field is absent, modelled as none, which aborts the whole
forEach (there is no try/catch around it). -/
def voteFeeStep (fees : FeeLedger) (cr : Receipt × Nat) : Option FeeLedger :=
  match cr.1.gasUsed, cr.1.effectiveGasPrice with
  | some g, some p => some (fun w => if w = cr.2 then fees cr.2 + g * p else fees w)
  | _, _ => none

def voteFeeAccount (fees : FeeLedger) : List (Receipt × Nat) → Option FeeLedger
  | [] => some fees
  | cr :: rest =>
    match voteFeeStep fees cr with
    | some fees2 => voteFeeAccount fees2 rest
    | none => none

/-! ## Submission executor (executeTransactions) -/

/-- Result of one invocation of a wallet's operation(): err models a
rejected promise, tx h a resolved transaction object whose hash field may
be absent. -/
inductive AttemptResult where
  | err
  | tx (hash : Option TxHash)
deriving Repr, DecidableEq

/-- transaction.js success test for one attempt: the resolved tx must be
truthy with a truthy hash (the source throws, inside its own try, on
!tx || !tx.hash, turning such a resolution into a failed attempt); an
empty string is falsy in JavaScript. -/
def txHashOf : AttemptResult → Option TxHash
  | AttemptResult.tx (some h) => if h = "" then none else some h
  | _ => none

/-- vote.js success test for one attempt: any resolved tx counts (the
source reads tx.hash with no check and pushes whatever it finds, a
TypeError on a null tx being caught as a failed attempt).  The embedding
only needs that a resolved non-null tx succeeds. -/
def voteHashOf : AttemptResult → Option (Option TxHash)
  | AttemptResult.tx h => some h
  | AttemptResult.err => none

inductive LoopEv where
  | attempt (n : Nat)
  | sleepMs (ms : Nat)
deriving Repr, DecidableEq

inductive LoopOutcome (α : Type) where
  | success (h : α)
  | exhausted
  | noAttempts
deriving Repr, DecidableEq

/-- The for (attempt = 1; attempt <= MAX_RETRIES; attempt++) retry loop
shared verbatim by transaction.js lines 108-125 and vote.js lines 70-86,
parameterized by the per-attempt success test.  It records the sequential
trace of attempts and sleeps: on success break immediately; on failure at
attempt == maxRetries throw the descriptive exhaustion error; otherwise
sleep retryDelay and run the next attempt.  noAttempts is the fall-through
of a loop whose body never runs (maxRetries = 0). -/
def attemptLoopGo {α : Type} (succ : AttemptResult → Option α)
    (op : Nat → AttemptResult) (maxRetries retryDelay : Nat) :
    Nat → Nat → List LoopEv × LoopOutcome α
  | 0, _ => ([], LoopOutcome.noAttempts)
  | fuel + 1, n =>
    match succ (op n) with
    | some h => ([LoopEv.attempt n], LoopOutcome.success h)
    | none =>
      if n = maxRetries then ([LoopEv.attempt n], LoopOutcome.exhausted)
      else
        let pr := attemptLoopGo succ op maxRetries retryDelay fuel (n + 1)
        (LoopEv.attempt n :: LoopEv.sleepMs retryDelay :: pr.1, pr.2)

def attemptLoop (op : Nat → AttemptResult) (maxRetries retryDelay : Nat) :
    List LoopEv × LoopOutcome TxHash :=
  attemptLoopGo txHashOf op maxRetries retryDelay maxRetries 1

def voteAttemptLoop (op : Nat → AttemptResult) (maxRetries retryDelay : Nat) :
    List LoopEv × LoopOutcome (Option TxHash) :=
  attemptLoopGo voteHashOf op maxRetries retryDelay maxRetries 1

/-- One element of the operations array: the oracle gives the result of
operation() on each attempt number, for the given walletIndex. -/
structure OpSpec where
  attempts : Nat → AttemptResult
  walletIndex : Nat

/-- Observable outcome of transaction.js executeTransactions.  outcome is
none while the confirmation loop is still polling (fuel ran out);
trackerArg is the transactions array handed to waitForAllConfirmations,
or none when that call was never reached. -/
structure ExecResult where
  outcome : Option (Except String (List ConfirmedEntry))
  trackerArg : Option (List TxRef)
  fees : FeeLedger

/-- The per-operation retry loops of one executeTransactions batch:
every loop runs to completion independently of its siblings (a rejected
promise inside Promise.all does not cancel the others). -/
def submissionRuns (ops : List OpSpec) (maxRetries retryDelay : Nat) :
    List ((List LoopEv × LoopOutcome TxHash) × Nat) :=
  ops.map (fun o => (attemptLoop o.attempts maxRetries retryDelay, o.walletIndex))

/-- The transactions array after the retry loops: one { hash, walletIndex }
entry pushed per successful loop, in the array-order schedule. -/
def submittedTxs (ops : List OpSpec) (maxRetries retryDelay : Nat) : List TxRef :=
  (submissionRuns ops maxRetries retryDelay).filterMap (fun pr =>
    match pr.1.2 with
    | LoopOutcome.success h => some { hash := h, walletIndex := pr.2 }
    | _ => none)

/-- Whether some operation threw its exhaustion error, which makes the
await Promise.all in executeTransactions reject. -/
def anyExhaustedRun (ops : List OpSpec) (maxRetries retryDelay : Nat) : Bool :=
  (submissionRuns ops maxRetries retryDelay).any (fun pr => pr.1.2 == LoopOutcome.exhausted)

/-- transaction.js executeTransactions (lines 103-146) under the
array-order schedule.  Every operation's retry loop runs to completion
independently, the hashes of the successful loops are collected, and then
the single await Promise.all either rejects, when some loop threw its
exhaustion error, so that waitForAllConfirmations is never invoked, or
resolves, after which the collected transactions are handed to
waitForAllConfirmations and the confirmed receipts are folded into the
fee ledger. -/
def executeTransactions (env : TrackEnv) (ops : List OpSpec)
    (maxRetries retryDelay required fuel t0 : Nat) (fees0 : FeeLedger) : ExecResult :=
  let txs := submittedTxs ops maxRetries retryDelay
  if anyExhaustedRun ops maxRetries retryDelay then
    { outcome := some (Except.error "Failed after maxRetries attempts"),
      trackerArg := none, fees := fees0 }
  else
    match waitForAllConfirmations env txs required fuel t0 with
    | some confirmed =>
      { outcome := some (Except.ok confirmed),
        trackerArg := some txs,
        fees := txFeeAccount fees0 (confirmed.map (fun c => (some c.receipt, c.walletIndex))) }
    | none => { outcome := none, trackerArg := some txs, fees := fees0 }

/-- Expected trace of a strictly sequential retry run: attempts numbered
n, n+1, ... (count many), with a retryDelay sleep after every attempt
except the last. -/
def seqTraceC (retryDelay : Nat) : Nat → Nat → List LoopEv
  | _, 0 => []
  | n, 1 => [LoopEv.attempt n]
  | n, c + 2 =>
      LoopEv.attempt n :: LoopEv.sleepMs retryDelay :: seqTraceC retryDelay (n + 1) (c + 1)

/-! # Theorems -/

/-! ## Fee ledger lemmas -/

theorem txFeeStep_le (fees : FeeLedger) (cr : Option Receipt × Nat) (w : Nat) :
    fees w ≤ txFeeStep fees cr w := by
  rcases cr with ⟨ro, wi⟩
  cases ro with
  | none => simp [txFeeStep]
  | some r =>
    cases hg : r.gasUsed with
    | none => simp [txFeeStep, hg]
    | some g =>
      cases hp : r.effectiveGasPrice with
      | none => simp [txFeeStep, hg, hp]
      | some p =>
        simp only [txFeeStep, hg, hp]
        by_cases hw : w = wi
        · subst hw; simp
        · simp [hw]

theorem txFeeStep_ne (fees : FeeLedger) (cr : Option Receipt × Nat) (w : Nat)
    (hw : cr.2 ≠ w) : txFeeStep fees cr w = fees w := by
  rcases cr with ⟨ro, wi⟩
  cases ro with
  | none => simp [txFeeStep]
  | some r =>
    cases hg : r.gasUsed with
    | none => simp [txFeeStep, hg]
    | some g =>
      cases hp : r.effectiveGasPrice with
      | none => simp [txFeeStep, hg, hp]
      | some p =>
        simp only [txFeeStep, hg, hp]
        have : w ≠ wi := fun hEq => hw (by simpa using hEq.symm)
        simp [this]

theorem txFeeAccount_le (fees : FeeLedger) (crs : List (Option Receipt × Nat)) (w : Nat) :
    fees w ≤ txFeeAccount fees crs w := by
  induction crs generalizing fees with
  | nil => simp [txFeeAccount]
  | cons c rest ih =>
    have h1 : fees w ≤ txFeeStep fees c w := txFeeStep_le fees c w
    have h2 : txFeeStep fees c w ≤ txFeeAccount (txFeeStep fees c) rest w := ih _
    have h3 : txFeeAccount fees (c :: rest) = txFeeAccount (txFeeStep fees c) rest := rfl
    rw [h3]
    exact le_trans h1 h2

theorem txFeeAccount_notMentioned (fees : FeeLedger) (crs : List (Option Receipt × Nat))
    (w : Nat) (hw : ∀ e ∈ crs, e.2 ≠ w) : txFeeAccount fees crs w = fees w := by
  induction crs generalizing fees with
  | nil => simp [txFeeAccount]
  | cons c rest ih =>
    have h3 : txFeeAccount fees (c :: rest) = txFeeAccount (txFeeStep fees c) rest := rfl
    rw [h3, ih _ (fun e he => hw e (List.mem_cons_of_mem _ he))]
    exact txFeeStep_ne fees c w (hw c (List.mem_cons_self _ _))

theorem voteFeeStep_le (fees fees2 : FeeLedger) (cr : Receipt × Nat) (w : Nat)
    (h : voteFeeStep fees cr = some fees2) : fees w ≤ fees2 w := by
  rcases cr with ⟨r, wi⟩
  cases hg : r.gasUsed with
  | none => simp [voteFeeStep, hg] at h
  | some g =>
    cases hp : r.effectiveGasPrice with
    | none => simp [voteFeeStep, hg, hp] at h
    | some p =>
      simp only [voteFeeStep, hg, hp, Option.some.injEq] at h
      subst h
      by_cases hw : w = wi
      · subst hw; simp
      · simp [hw]

theorem voteFeeAccount_le (crs : List (Receipt × Nat)) :
    ∀ fees fees2 : FeeLedger, voteFeeAccount fees crs = some fees2 →
      ∀ w, fees w ≤ fees2 w := by
  induction crs with
  | nil =>
    intro fees fees2 h w
    simp only [voteFeeAccount, Option.some.injEq] at h
    subst h; exact le_rfl
  | cons c rest ih =>
    intro fees fees2 h w
    simp only [voteFeeAccount] at h
    cases hs : voteFeeStep fees c with
    | none => rw [hs] at h; cases h
    | some fees1 =>
      rw [hs] at h
      exact le_trans (voteFeeStep_le fees fees1 c w hs) (ih fees1 fees2 h w)

/-- C5: every Fee Ledger value is monotonically non-decreasing: each
update in transaction.js adds the non-negative fee gasUsed times
effectiveGasPrice to the previous value, no code path decreases or
removes an entry, a wallet with no confirmed receipt in a batch keeps its
previous value, the initial ledger reads zero everywhere, and the vote.js
update (when it does not throw) is likewise non-decreasing. -/
theorem c5_fee_ledger_monotone :
    (∀ w, walletFeesInit w = 0) ∧
    (∀ (fees : FeeLedger) (crs : List (Option Receipt × Nat)) (w : Nat),
      fees w ≤ txFeeAccount fees crs w) ∧
    (∀ (fees : FeeLedger) (crs : List (Option Receipt × Nat)) (w : Nat),
      (∀ e ∈ crs, e.2 ≠ w) → txFeeAccount fees crs w = fees w) ∧
    (∀ (fees fees2 : FeeLedger) (crs : List (Receipt × Nat)) (w : Nat),
      voteFeeAccount fees crs = some fees2 → fees w ≤ fees2 w) := by
  refine ⟨fun _ => rfl, txFeeAccount_le, txFeeAccount_notMentioned, ?_⟩
  intro fees fees2 crs w h
  exact voteFeeAccount_le crs fees fees2 h w

/-- Witness for C5 at concrete inputs: the initial ledger reads zero for
wallet 0 and stays zero across a batch whose only confirmed receipt
belongs to wallet 1. -/
theorem c5_witness :
    txFeeAccount walletFeesInit
        [(some { blockNumber := some 3, gasUsed := some 2,
                 effectiveGasPrice := some 5, status := true }, 1)] 0
      = walletFeesInit 0 :=
  c5_fee_ledger_monotone.2.2.1 walletFeesInit
    [(some { blockNumber := some 3, gasUsed := some 2,
             effectiveGasPrice := some 5, status := true }, 1)] 0 (by decide)

/-! ## C3: fee accounting guard conditions -/

/-- A receipt with failure status but both fee fields present. -/
def failedStatusReceipt : Receipt :=
  { blockNumber := some 5, gasUsed := some 2, effectiveGasPrice := some 3, status := false }

/-- C3 counterexample: transaction.js computes and adds the fee for a
confirmed receipt whose status is failure, because the guard on lines
133-138 tests only receipt, receipt.gasUsed and receipt.effectiveGasPrice
and never the status field; the claim says fee accounting is skipped for
a failure-status receipt, yet wallet 0 is charged 2 times 3 = 6 here. -/
theorem c3_counterexample :
    txFeeAccount walletFeesInit [(some failedStatusReceipt, 0)] 0 = 6 ∧
    failedStatusReceipt.status = false := by
  exact ⟨rfl, rfl⟩

/-- C3 amended: in transaction.js, fee accounting is skipped exactly when
the receipt is missing or lacks the gasUsed or effectiveGasPrice field
(failure status is not consulted); only otherwise is
fee = gasUsed times effectiveGasPrice added to that wallet's ledger entry.
In vote.js the fee stage performs no such checks and throws exactly when
a fee field is absent. -/
theorem c3_fee_skip_conditions :
    (∀ (fees : FeeLedger) (w : Nat), txFeeStep fees (none, w) = fees) ∧
    (∀ (fees : FeeLedger) (r : Receipt) (w : Nat),
      r.gasUsed = none ∨ r.effectiveGasPrice = none →
      txFeeStep fees (some r, w) = fees) ∧
    (∀ (fees : FeeLedger) (r : Receipt) (w g p : Nat),
      r.gasUsed = some g → r.effectiveGasPrice = some p →
      txFeeStep fees (some r, w) = fun v => if v = w then fees w + g * p else fees v) ∧
    (∀ (fees : FeeLedger) (r : Receipt) (w : Nat),
      voteFeeStep fees (r, w) = none ↔ (r.gasUsed = none ∨ r.effectiveGasPrice = none)) := by
  refine ⟨fun fees w => rfl, ?_, ?_, ?_⟩
  · intro fees r w h
    cases hg : r.gasUsed with
    | none => simp [txFeeStep, hg]
    | some g =>
      cases hp : r.effectiveGasPrice with
      | none => simp [txFeeStep, hg, hp]
      | some p =>
        rcases h with h | h
        · rw [hg] at h; cases h
        · rw [hp] at h; cases h
  · intro fees r w g p hg hp
    simp [txFeeStep, hg, hp]
  · intro fees r w
    cases hg : r.gasUsed with
    | none => simp [voteFeeStep, hg]
    | some g =>
      cases hp : r.effectiveGasPrice with
      | none => simp [voteFeeStep, hg, hp]
      | some p => simp [voteFeeStep, hg, hp]

/-- Witness for C3 amended at a concrete input: a receipt lacking the
effectiveGasPrice field has fee accounting skipped. -/
theorem c3_witness :
    txFeeStep walletFeesInit
        (some { blockNumber := some 1, gasUsed := some 7,
                effectiveGasPrice := none, status := true }, 3)
      = walletFeesInit :=
  c3_fee_skip_conditions.2.1 walletFeesInit
    { blockNumber := some 1, gasUsed := some 7, effectiveGasPrice := none, status := true }
    3 (Or.inr rfl)

/-! ## C8 and C7: receipt fetcher -/

theorem retryGetReceiptGo_allFail (oracle : Nat → Except Unit (Option Receipt)) (m : Nat) :
    ∀ fuel n, 1 ≤ n → n ≤ m → n + fuel = m + 1 →
    (∀ j, n ≤ j → j ≤ m → ∀ r, oracle j ≠ Except.ok (some r)) →
    retryGetReceiptGo oracle m fuel n = (List.replicate (m - n) 2000, none) := by
  intro fuel
  induction fuel with
  | zero => intro n _ _ h3 _; omega
  | succ fuel ih =>
    intro n h1 h2 h3 hfail
    have hnot : ∀ r, oracle n ≠ Except.ok (some r) := hfail n le_rfl h2
    by_cases hnm : n < m
    · have hrec := ih (n + 1) (by omega) (by omega) (by omega)
        (fun j hj hjm r => hfail j (by omega) hjm r)
      have hrep : m - n = (m - (n + 1)) + 1 := by omega
      cases ho : oracle n with
      | error e =>
        simp only [retryGetReceiptGo, ho, if_pos hnm, hrec, hrep]
        rfl
      | ok v =>
        cases v with
        | none =>
          simp only [retryGetReceiptGo, ho, if_pos hnm, hrec, hrep]
          rfl
        | some r => exact absurd ho (hnot r)
    · have hnm2 : n = m := by omega
      have hrep : m - n = 0 := by omega
      cases ho : oracle n with
      | error e =>
        simp only [retryGetReceiptGo, ho, if_neg hnm, hrep]
        rfl
      | ok v =>
        cases v with
        | none =>
          simp only [retryGetReceiptGo, ho, if_neg hnm, hrep]
          rfl
        | some r => exact absurd ho (hnot r)

/-- C8: retryGetReceipt never propagates an exception: a thrown query
counts exactly like a null result as one failed attempt, a 2000 ms delay
is waited after every attempt except the final one, and after maxAttempts
attempts with no non-null receipt the function returns null. -/
theorem c8_retry_get_receipt_total (oracle : Nat → Except Unit (Option Receipt)) (m : Nat)
    (hm : 1 ≤ m)
    (hfail : ∀ j, 1 ≤ j → j ≤ m → ∀ r, oracle j ≠ Except.ok (some r)) :
    retryGetReceipt oracle m = (List.replicate (m - 1) 2000, none) :=
  retryGetReceiptGo_allFail oracle m m 1 le_rfl hm (by omega) hfail

/-- Witness for C8: an endpoint that always throws a transport error,
with maxAttempts 5, yields null after four inter-attempt delays. -/
theorem c8_witness :
    retryGetReceipt (fun _ => Except.error ()) 5 = (List.replicate 4 2000, none) :=
  c8_retry_get_receipt_total (fun _ => Except.error ()) 5 (by omega)
    (fun _ _ _ _ h => Except.noConfusion h)

/-- A receipt that is present but has no inclusion block number. -/
def receiptNoBlock : Receipt :=
  { blockNumber := none, gasUsed := some 1, effectiveGasPrice := some 1, status := true }

/-- C7 counterexample: given an endpoint whose very first query yields a
receipt lacking an inclusion block number, retryGetReceipt returns that
receipt (line 34 of transaction.js tests only that the receipt is
non-null), contradicting the claim that the fetcher does not return such
a receipt and instead reports the not-yet-available outcome. -/
theorem c7_counterexample :
    (retryGetReceipt (fun _ => Except.ok (some receiptNoBlock)) 3).2 = some receiptNoBlock ∧
    receiptNoBlock.blockNumber = none := by
  exact ⟨rfl, rfl⟩

theorem retryGetReceiptGo_firstSuccess (oracle : Nat → Except Unit (Option Receipt))
    (m n : Nat) (r : Receipt) :
    ∀ fuel j, 1 ≤ j → j ≤ n → n ≤ m → j + fuel = m + 1 →
    (∀ i, j ≤ i → i < n → ∀ r2, oracle i ≠ Except.ok (some r2)) →
    oracle n = Except.ok (some r) →
    retryGetReceiptGo oracle m fuel j = (List.replicate (n - j) 2000, some r) := by
  intro fuel
  induction fuel with
  | zero => intro j _ _ hnm h3 _ _; omega
  | succ fuel ih =>
    intro j h1 h2 hnm h3 hfail hsucc
    by_cases hjn : j = n
    · subst hjn
      simp only [retryGetReceiptGo, hsucc, Nat.sub_self, List.replicate]
    · have hlt : j < n := lt_of_le_of_ne h2 hjn
      have hjm : j < m := by omega
      have hnot : ∀ r2, oracle j ≠ Except.ok (some r2) := hfail j le_rfl hlt
      have hrec := ih (j + 1) (by omega) (by omega) hnm (by omega)
        (fun i hi hin r2 => hfail i (by omega) hin r2) hsucc
      have hrep : n - j = (n - (j + 1)) + 1 := by omega
      cases ho : oracle j with
      | error e =>
        simp only [retryGetReceiptGo, ho, if_pos hjm, hrec, hrep]
        rfl
      | ok v =>
        cases v with
        | none =>
          simp only [retryGetReceiptGo, ho, if_pos hjm, hrec, hrep]
          rfl
        | some r2 => exact absurd ho (hnot r2)

/-- C7 amended: retryGetReceipt returns the first non-null receipt an
attempt obtains, whether or not it carries an inclusion block number;
the missing-block-number case is instead handled by the caller
waitForAllConfirmations, whose per-entry step keeps such a transaction
pending. -/
theorem c7_receipt_fetcher_blocknumber :
    (∀ (oracle : Nat → Except Unit (Option Receipt)) (m n : Nat) (r : Receipt),
      1 ≤ n → n ≤ m →
      (∀ i, 1 ≤ i → i < n → ∀ r2, oracle i ≠ Except.ok (some r2)) →
      oracle n = Except.ok (some r) →
      retryGetReceipt oracle m = (List.replicate (n - 1) 2000, some r)) ∧
    (∀ (env : TrackEnv) (required round k : Nat) (rot : RotState) (h : TxHash) (r : Receipt),
      env.candReceipt round
          (getNextPublicProvider env.numProviders (env.clock k) rot).1 h = some r →
      r.truthyBlockNumber = none →
      (txStep env required round (k, rot) h).1 = EntryOutcome.keep) := by
  constructor
  · intro oracle m n r h1 h2 hfail hsucc
    exact retryGetReceiptGo_firstSuccess oracle m n r m 1 le_rfl h1 h2 (by omega) hfail hsucc
  · intro env required round k rot h r hcand htruthy
    simp only [txStep, hcand, htruthy]

/-- Witness for C7 amended: the fetcher hands back a block-number-free
receipt obtained on attempt 1 with no sleeps. -/
theorem c7_witness :
    retryGetReceipt (fun _ => Except.ok (some receiptNoBlock)) 3
      = (List.replicate 0 2000, some receiptNoBlock) :=
  c7_receipt_fetcher_blocknumber.1 (fun _ => Except.ok (some receiptNoBlock)) 3 1
    receiptNoBlock le_rfl (by omega) (fun i h1 h2 r2 => absurd (lt_of_le_of_lt h1 h2) (by omega))
    rfl

/-! ## C6: the submission retry loop -/

theorem attemptLoopGo_spec {α : Type} (succ : AttemptResult → Option α)
    (op : Nat → AttemptResult) (m d : Nat) :
    ∀ fuel n, 1 ≤ n → n ≤ m → n + fuel = m + 1 →
    ∃ k, n ≤ k ∧ k ≤ m ∧
      (attemptLoopGo succ op m d fuel n).1 = seqTraceC d n (k + 1 - n) ∧
      (∀ j, n ≤ j → j < k → succ (op j) = none) ∧
      ((∃ h, succ (op k) = some h ∧
          (attemptLoopGo succ op m d fuel n).2 = LoopOutcome.success h) ∨
        (k = m ∧ succ (op m) = none ∧
          (attemptLoopGo succ op m d fuel n).2 = LoopOutcome.exhausted)) := by
  intro fuel
  induction fuel with
  | zero => intro n _ _ h3; omega
  | succ fuel ih =>
    intro n h1 h2 h3
    cases hs : succ (op n) with
    | some h =>
      refine ⟨n, le_rfl, h2, ?_, ?_, Or.inl ⟨h, hs, ?_⟩⟩
      · have hone : n + 1 - n = 1 := by omega
        simp only [attemptLoopGo, hs, hone, seqTraceC]
      · intro j hj hjn; omega
      · simp only [attemptLoopGo, hs]
    | none =>
      by_cases hnm : n = m
      · subst hnm
        refine ⟨n, le_rfl, le_rfl, ?_, ?_, Or.inr ⟨rfl, hs, ?_⟩⟩
        · have hone : n + 1 - n = 1 := by omega
          simp only [attemptLoopGo, hs, eq_self_iff_true, if_true, hone, seqTraceC]
        · intro j hj hjn; omega
        · simp only [attemptLoopGo, hs, eq_self_iff_true, if_true]
      · have hlt : n < m := lt_of_le_of_ne h2 hnm
        obtain ⟨k, hk1, hk2, htr, hfail, hout⟩ := ih (n + 1) (by omega) (by omega) (by omega)
        refine ⟨k, by omega, hk2, ?_, ?_, ?_⟩
        · have hrep : k + 1 - n = (k - n - 1) + 2 := by omega
          have hrep2 : k - n - 1 + 1 = k + 1 - (n + 1) := by omega
          simp only [attemptLoopGo, hs, if_neg hnm, htr, hrep, seqTraceC, hrep2]
        · intro j hj hjk
          rcases Nat.eq_or_lt_of_le hj with hj2 | hj2
          · exact hj2 ▸ hs
          · exact hfail j (by omega) hjk
        · cases hout with
          | inl hcase =>
            obtain ⟨h, hh1, hh2⟩ := hcase
            exact Or.inl ⟨h, hh1, by simp only [attemptLoopGo, hs, if_neg hnm, hh2]⟩
          | inr hcase =>
            obtain ⟨he1, he2, he3⟩ := hcase
            exact Or.inr ⟨he1, he2, by simp only [attemptLoopGo, hs, if_neg hnm, he3]⟩

/-- C6: each retry loop (identical in both files up to the per-attempt
success test) is strictly sequential; for some k between 1 and
maxRetries its trace is exactly attempts 1 through k with a retryDelay
sleep between consecutive attempts and none after the last, every
attempt before k failed, and either attempt k succeeded, stopping the
loop immediately, or k = maxRetries, every attempt failed, and the loop
ends in the descriptive exhaustion error. -/
theorem c6_attempt_loop_spec :
    (∀ (op : Nat → AttemptResult) (m d : Nat), 1 ≤ m →
      ∃ k, 1 ≤ k ∧ k ≤ m ∧
        (attemptLoop op m d).1 = seqTraceC d 1 k ∧
        (∀ j, 1 ≤ j → j < k → txHashOf (op j) = none) ∧
        ((∃ h, txHashOf (op k) = some h ∧
            (attemptLoop op m d).2 = LoopOutcome.success h) ∨
          (k = m ∧ txHashOf (op m) = none ∧
            (attemptLoop op m d).2 = LoopOutcome.exhausted))) ∧
    (∀ (op : Nat → AttemptResult) (m d : Nat), 1 ≤ m →
      ∃ k, 1 ≤ k ∧ k ≤ m ∧
        (voteAttemptLoop op m d).1 = seqTraceC d 1 k ∧
        (∀ j, 1 ≤ j → j < k → voteHashOf (op j) = none) ∧
        ((∃ h, voteHashOf (op k) = some h ∧
            (voteAttemptLoop op m d).2 = LoopOutcome.success h) ∨
          (k = m ∧ voteHashOf (op m) = none ∧
            (voteAttemptLoop op m d).2 = LoopOutcome.exhausted))) := by
  constructor
  · intro op m d hm
    obtain ⟨k, hk1, hk2, htr, hfail, hout⟩ :=
      attemptLoopGo_spec txHashOf op m d m 1 le_rfl hm (by omega)
    have h11 : k + 1 - 1 = k := by omega
    rw [h11] at htr
    exact ⟨k, hk1, hk2, htr, hfail, hout⟩
  · intro op m d hm
    obtain ⟨k, hk1, hk2, htr, hfail, hout⟩ :=
      attemptLoopGo_spec voteHashOf op m d m 1 le_rfl hm (by omega)
    have h11 : k + 1 - 1 = k := by omega
    rw [h11] at htr
    exact ⟨k, hk1, hk2, htr, hfail, hout⟩

/-- Witness for C6: an operation that fails on attempts 1 and 2 and
succeeds on attempt 3, with maxRetries 3. -/
theorem c6_witness :
    ∃ k, 1 ≤ k ∧ k ≤ 3 ∧
      (attemptLoop (fun n => if n = 2 then AttemptResult.err
          else AttemptResult.tx (if n = 3 then some "0xa" else none)) 3 100).1
        = seqTraceC 100 1 k ∧
      (∀ j, 1 ≤ j → j < k →
        txHashOf ((fun n => if n = 2 then AttemptResult.err
          else AttemptResult.tx (if n = 3 then some "0xa" else none)) j) = none) ∧
      ((∃ h, txHashOf ((fun n => if n = 2 then AttemptResult.err
            else AttemptResult.tx (if n = 3 then some "0xa" else none)) k) = some h ∧
          (attemptLoop (fun n => if n = 2 then AttemptResult.err
            else AttemptResult.tx (if n = 3 then some "0xa" else none)) 3 100).2
            = LoopOutcome.success h) ∨
        (k = 3 ∧ txHashOf ((fun n => if n = 2 then AttemptResult.err
            else AttemptResult.tx (if n = 3 then some "0xa" else none)) 3) = none ∧
          (attemptLoop (fun n => if n = 2 then AttemptResult.err
            else AttemptResult.tx (if n = 3 then some "0xa" else none)) 3 100).2
            = LoopOutcome.exhausted)) :=
  c6_attempt_loop_spec.1
    (fun n => if n = 2 then AttemptResult.err
      else AttemptResult.tx (if n = 3 then some "0xa" else none)) 3 100 (by omega)

/-! ## C1: exhaustion of one wallet and the Confirmation Tracker -/

/-- An environment whose candidate endpoint never yields a receipt. -/
def trivialTrackEnv : TrackEnv :=
  { numProviders := 1, clock := fun _ => 0, candReceipt := fun _ _ _ => none,
    headBlock := fun _ _ => Except.ok 0, mainReceipt := fun _ _ => none }

def opAlwaysSucceeds : OpSpec :=
  { attempts := fun _ => AttemptResult.tx (some "0xa"), walletIndex := 0 }

def opAlwaysFails : OpSpec :=
  { attempts := fun _ => AttemptResult.err, walletIndex := 1 }

/-- C1 counterexample: in a batch where wallet 0's operation succeeds on
attempt 1 (a hash is recorded) and wallet 1's operation fails all three
attempts, executeTransactions rejects out of its await Promise.all and
waitForAllConfirmations is never invoked (trackerArg = none), so the
successfully submitted hash is not handed to the Confirmation Tracker,
contrary to the claim. -/
theorem c1_counterexample :
    (executeTransactions trivialTrackEnv [opAlwaysSucceeds, opAlwaysFails]
        3 1000 1 5 0 walletFeesInit).trackerArg = none ∧
    (attemptLoop opAlwaysSucceeds.attempts 3 1000).2 = LoopOutcome.success "0xa" ∧
    (attemptLoop opAlwaysFails.attempts 3 1000).2 = LoopOutcome.exhausted := by
  exact ⟨rfl, rfl, rfl⟩

/-- C1 amended: each wallet's attempt loop runs to completion
independently of its siblings, but when any wallet exhausts all
maxRetries attempts the resulting rejection propagates out of
executeTransactions before waitForAllConfirmations is reached, so the
recorded hashes are handed to the Confirmation Tracker exactly when no
wallet exhausted its attempts. -/
theorem c1_exec_tracker_invocation (env : TrackEnv) (ops : List OpSpec)
    (maxRetries retryDelay required fuel t0 : Nat) (fees0 : FeeLedger) :
    (anyExhaustedRun ops maxRetries retryDelay = true →
      (executeTransactions env ops maxRetries retryDelay required fuel t0 fees0).trackerArg
          = none ∧
      (executeTransactions env ops maxRetries retryDelay required fuel t0 fees0).outcome
          = some (Except.error "Failed after maxRetries attempts")) ∧
    (anyExhaustedRun ops maxRetries retryDelay = false →
      (executeTransactions env ops maxRetries retryDelay required fuel t0 fees0).trackerArg
          = some (submittedTxs ops maxRetries retryDelay)) := by
  constructor
  · intro hex
    simp [executeTransactions, hex]
  · intro hex
    simp only [executeTransactions, hex, Bool.false_eq_true, if_false]
    cases hw : waitForAllConfirmations env (submittedTxs ops maxRetries retryDelay)
        required fuel t0 with
    | none => simp [hw]
    | some confirmed => simp [hw]

/-- Witness for C1 amended: a batch with a single succeeding wallet has
its transactions array handed to the Confirmation Tracker. -/
theorem c1_witness :
    (executeTransactions trivialTrackEnv [opAlwaysSucceeds]
        3 1000 1 5 0 walletFeesInit).trackerArg
      = some (submittedTxs [opAlwaysSucceeds] 3 1000) :=
  (c1_exec_tracker_invocation trivialTrackEnv [opAlwaysSucceeds]
    3 1000 1 5 0 walletFeesInit).2 rfl

/-! ## Confirmation tracker bookkeeping lemmas

The wallet-index multiset of an input transaction list is an exact
inventory: it lets the pending set and the confirmed list together be
compared against the inputs, identifying each input transaction by the
occurrence of its wallet index. -/

def wiPending (l : List (TxHash × TxState)) : List Nat :=
  l.map (fun p => p.2.walletIndex)

def wiConfirmed (l : List ConfirmedEntry) : List Nat :=
  l.map ConfirmedEntry.walletIndex

def wiMeasure {σ : Type} (st : List (TxHash × TxState) × List ConfirmedEntry × σ) :
    List Nat :=
  wiPending st.1 ++ wiConfirmed st.2.1

theorem roundGen_perm {σ : Type} (step : σ → TxHash → EntryOutcome × σ) :
    ∀ (l : List (TxHash × TxState)) (s : σ),
      (wiPending (roundGen step l s).1 ++ wiConfirmed (roundGen step l s).2.1).Perm
        (wiPending l) := by
  intro l
  induction l with
  | nil => intro s; simp [roundGen, wiPending, wiConfirmed]
  | cons p rest ih =>
    intro s
    rcases p with ⟨h, st⟩
    cases ho : (step s h).1 with
    | keep =>
      simp only [roundGen, ho, wiPending, wiConfirmed, List.map_cons, List.cons_append]
      exact (ih (step s h).2).cons st.walletIndex
    | emit r =>
      simp only [roundGen, ho, wiPending, wiConfirmed, List.map_cons, List.map,
        List.cons_append]
      refine List.Perm.trans List.perm_middle ?_
      exact (ih (step s h).2).cons st.walletIndex

theorem wiConfirmed_append (a b : List ConfirmedEntry) :
    wiConfirmed (a ++ b) = wiConfirmed a ++ wiConfirmed b := by
  simp [wiConfirmed]

theorem genRoundState_perm {σ : Type} (step : Nat → σ → TxHash → EntryOutcome × σ)
    (round : Nat) (st : List (TxHash × TxState) × List ConfirmedEntry × σ) :
    (wiMeasure (genRoundState step round st)).Perm (wiMeasure st) := by
  rcases st with ⟨states, confirmed, s⟩
  have hr := roundGen_perm (step round) states s
  show (wiPending (roundGen (step round) states s).1 ++
      wiConfirmed (confirmed ++ (roundGen (step round) states s).2.1)).Perm
    (wiPending states ++ wiConfirmed confirmed)
  rw [wiConfirmed_append]
  refine List.Perm.trans (List.Perm.append_left _ List.perm_append_comm) ?_
  rw [← List.append_assoc]
  exact List.Perm.append_right _ hr

theorem genIter_perm {σ : Type} (step : Nat → σ → TxHash → EntryOutcome × σ) :
    ∀ (n round : Nat) (st : List (TxHash × TxState) × List ConfirmedEntry × σ),
      (wiMeasure (genIter step n round st)).Perm (wiMeasure st) := by
  intro n
  induction n with
  | zero => intro round st; exact List.Perm.refl _
  | succ n ih =>
    intro round st
    exact ((ih (round + 1) (genRoundState step round st))).trans
      (genRoundState_perm step round st)

theorem loopGen_eq_some {σ : Type} (step : Nat → σ → TxHash → EntryOutcome × σ) :
    ∀ (fuel round : Nat) (s : σ) (states : List (TxHash × TxState))
      (confirmed out : List ConfirmedEntry),
      loopGen step fuel round s states confirmed = some out →
      ∃ n s2, n ≤ fuel ∧ genIter step n round (states, confirmed, s) = ([], out, s2) := by
  intro fuel
  induction fuel with
  | zero =>
    intro round s states confirmed out h
    simp only [loopGen] at h
    cases he : states.isEmpty with
    | false => rw [he] at h; cases h
    | true =>
      rw [he] at h
      simp only [if_true] at h
      have hs : states = [] := List.isEmpty_iff.mp he
      refine ⟨0, s, le_rfl, ?_⟩
      simp only [genIter, hs]
      cases h
      rfl
  | succ fuel ih =>
    intro round s states confirmed out h
    simp only [loopGen] at h
    cases he : states.isEmpty with
    | true =>
      rw [he] at h
      simp only [if_true] at h
      have hs : states = [] := List.isEmpty_iff.mp he
      refine ⟨0, s, Nat.zero_le _, ?_⟩
      simp only [genIter, hs]
      cases h
      rfl
    | false =>
      rw [he] at h
      simp only [Bool.false_eq_true, if_false] at h
      obtain ⟨n, s2, hn, hiter⟩ := ih (round + 1) (roundGen (step round) states s).2.2
        (roundGen (step round) states s).1
        (confirmed ++ (roundGen (step round) states s).2.1) out h
      refine ⟨n + 1, s2, by omega, ?_⟩
      simpa only [genIter, genRoundState] using hiter

theorem mapSet_not_mem (m : List (TxHash × TxState)) (key : TxHash) (v : TxState)
    (hk : key ∉ m.map Prod.fst) : mapSet m key v = m ++ [(key, v)] := by
  unfold mapSet
  rw [if_neg]
  intro hc
  rw [List.any_eq_true] at hc
  obtain ⟨p, hp, hpe⟩ := hc
  exact hk (List.mem_map.mpr ⟨p, hp, (eq_of_beq hpe)⟩)

theorem mapSet_keys_of_mem (m : List (TxHash × TxState)) (key : TxHash) (v : TxState)
    (hk : m.any (fun p => p.1 == key) = true) :
    (mapSet m key v).map Prod.fst = m.map Prod.fst := by
  unfold mapSet
  rw [if_pos hk, List.map_map]
  apply List.map_congr_left
  intro p _
  by_cases hp : p.1 == key
  · simp only [Function.comp, hp, if_true]
    exact (eq_of_beq hp).symm
  · simp only [Function.comp, hp]
    simp

theorem mapSet_keys_nodup (m : List (TxHash × TxState)) (key : TxHash) (v : TxState)
    (hm : (m.map Prod.fst).Nodup) : ((mapSet m key v).map Prod.fst).Nodup := by
  cases hk : m.any (fun p => p.1 == key) with
  | true => rw [mapSet_keys_of_mem m key v hk]; exact hm
  | false =>
    have hnot : key ∉ m.map Prod.fst := by
      intro hmem
      obtain ⟨p, hp, hpe⟩ := List.mem_map.mp hmem
      have : m.any (fun p => p.1 == key) = true :=
        List.any_eq_true.mpr ⟨p, hp, by simp [hpe]⟩
      rw [hk] at this; cases this
    rw [mapSet_not_mem m key v hnot]
    simp only [List.map_append, List.map]
    rw [List.nodup_append]
    exact ⟨hm, List.nodup_singleton _, by
      intro a ha hb
      simp only [List.mem_singleton] at hb
      subst hb
      exact hnot ha⟩

theorem buildStates_keys_nodup (txs : List TxRef) :
    ((buildConfirmationStates txs).map Prod.fst).Nodup := by
  suffices h : ∀ (l : List TxRef) (m : List (TxHash × TxState)), (m.map Prod.fst).Nodup →
      ((l.foldl (fun m t =>
          mapSet m t.hash { confirmations := 0, walletIndex := t.walletIndex }) m).map
        Prod.fst).Nodup by
    exact h txs [] (by simp)
  intro l
  induction l with
  | nil => intro m hm; exact hm
  | cons t rest ih =>
    intro m hm
    exact ih _ (mapSet_keys_nodup m t.hash _ hm)

theorem buildStates_of_nodup : ∀ (txs : List TxRef) (m : List (TxHash × TxState)),
    (txs.map TxRef.hash).Nodup → (∀ t ∈ txs, t.hash ∉ m.map Prod.fst) →
    txs.foldl (fun m t =>
        mapSet m t.hash { confirmations := 0, walletIndex := t.walletIndex }) m
      = m ++ txs.map (fun t =>
          ((t.hash, { confirmations := 0, walletIndex := t.walletIndex }) :
            TxHash × TxState)) := by
  intro txs
  induction txs with
  | nil => intro m _ _; simp
  | cons t rest ih =>
    intro m hnd hdisj
    have hmem : t.hash ∉ m.map Prod.fst := hdisj t (List.mem_cons_self _ _)
    have hstep : mapSet m t.hash { confirmations := 0, walletIndex := t.walletIndex }
        = m ++ [(t.hash, { confirmations := 0, walletIndex := t.walletIndex })] :=
      mapSet_not_mem m t.hash _ hmem
    simp only [List.foldl_cons, hstep]
    rw [ih (m ++ [(t.hash, _)]) (by
        simp only [List.map_cons, List.nodup_cons] at hnd
        exact hnd.2)
      (by
        intro t2 ht2
        simp only [List.map_append, List.mem_append, List.map]
        push_neg
        constructor
        · exact hdisj t2 (List.mem_cons_of_mem _ ht2)
        · simp only [List.mem_singleton]
          intro hEq
          simp only [List.map_cons, List.nodup_cons] at hnd
          exact hnd.1 (hEq ▸ List.mem_map_of_mem TxRef.hash ht2))]
    simp

theorem buildStates_eq_map (txs : List TxRef) (hnd : (txs.map TxRef.hash).Nodup) :
    buildConfirmationStates txs = txs.map (fun t =>
      ((t.hash, { confirmations := 0, walletIndex := t.walletIndex }) :
        TxHash × TxState)) := by
  unfold buildConfirmationStates
  rw [buildStates_of_nodup txs [] hnd (by intro t _; simp)]
  simp

theorem wiPending_buildStates (txs : List TxRef) (hnd : (txs.map TxRef.hash).Nodup) :
    wiPending (buildConfirmationStates txs) = txs.map TxRef.walletIndex := by
  rw [buildStates_eq_map txs hnd]
  simp [wiPending]

/-! ## Concrete environments used by counterexamples and witnesses -/

/-- Candidate receipt with inclusion block 1 and both fee fields. -/
def candReceiptFull : Receipt :=
  { blockNumber := some 1, gasUsed := some 1, effectiveGasPrice := some 1, status := true }

/-- Authoritative receipt with both fee fields. -/
def mainFullReceipt : Receipt :=
  { blockNumber := some 1, gasUsed := some 2, effectiveGasPrice := some 3, status := true }

/-- An environment that confirms every transaction in the first round:
candidate receipt included at block 1, head block 10, well-formed
authoritative receipt. -/
def confirmEnv : TrackEnv :=
  { numProviders := 1, clock := fun _ => 0,
    candReceipt := fun _ _ _ => some candReceiptFull,
    headBlock := fun _ _ => Except.ok 10,
    mainReceipt := fun _ _ => some mainFullReceipt }

/-- A receipt lacking the gasUsed field. -/
def malformedReceipt : Receipt :=
  { blockNumber := some 1, gasUsed := none, effectiveGasPrice := some 1, status := true }

/-- A vote.js environment whose provider yields the malformed receipt,
included at block 1, with head block 10. -/
def voteEmitEnv : VoteEnv :=
  { receipt := fun _ _ => Except.ok (some malformedReceipt),
    headBlock := fun _ => Except.ok 10 }

/-! ## C2: removal conditions of the confirmation trackers -/

/-- C2 counterexample: vote.js waitForAllConfirmations emits a
transaction as confirmed purely on confirmation depth, reusing the
already-fetched receipt: here the emitted receipt lacks the gas-used
field, so the transaction was removed from the pending set without any
fresh well-formedness-checked authoritative fetch, contrary to
condition (b) of the claim. -/
theorem c2_counterexample :
    voteWaitForAllConfirmations voteEmitEnv [{ hash := "a", walletIndex := 0 }] 1 1
        = some [{ receipt := malformedReceipt, walletIndex := 0 }] ∧
    malformedReceipt.gasUsed = none := by
  exact ⟨rfl, rfl⟩

/-- C2 amended: in transaction.js, an entry is removed from the pending
set and emitted as confirmed in a round exactly when the candidate
endpoint chosen by the rotator yielded a receipt with a truthy inclusion
block number, the same endpoint's head gave a depth at or above
requiredConfirmations, and the fresh authoritative fetch returned a
receipt bearing both gas-used and effective-price fields (otherwise the
entry stays pending).  In vote.js, reaching the required depth with the
single provider's receipt alone already emits that receipt, with no
well-formedness validation. -/
theorem c2_removal_condition :
    (∀ (env : TrackEnv) (required round k : Nat) (rot : RotState) (h : TxHash) (r : Receipt),
      (txStep env required round (k, rot) h).1 = EntryOutcome.emit r ↔
        ∃ cr bn head,
          env.candReceipt round
              (getNextPublicProvider env.numProviders (env.clock k) rot).1 h = some cr ∧
          cr.truthyBlockNumber = some bn ∧
          env.headBlock round
              (getNextPublicProvider env.numProviders (env.clock k) rot).1
            = Except.ok head ∧
          (required : Int) ≤ jsConfirmations head bn ∧
          env.mainReceipt round h = some r ∧
          r.gasUsed.isSome = true ∧ r.effectiveGasPrice.isSome = true) ∧
    (∀ (venv : VoteEnv) (required round : Nat) (h : TxHash) (r : Receipt) (bn head : Nat),
      venv.receipt round h = Except.ok (some r) →
      r.truthyBlockNumber = some bn →
      venv.headBlock round = Except.ok head →
      (required : Int) ≤ jsConfirmations head bn →
      (voteStep venv required round () h).1 = EntryOutcome.emit r) := by
  constructor
  · intro env required round k rot h r
    cases hcand : env.candReceipt round
        (getNextPublicProvider env.numProviders (env.clock k) rot).1 h with
    | none => simp [txStep, hcand]
    | some cr =>
      cases htr : cr.truthyBlockNumber with
      | none => simp [txStep, hcand, htr]
      | some bn =>
        cases hhead : env.headBlock round
            (getNextPublicProvider env.numProviders (env.clock k) rot).1 with
        | error e => simp [txStep, hcand, htr, hhead]
        | ok head =>
          by_cases hle : (required : Int) ≤ jsConfirmations head bn
          · cases hmain : env.mainReceipt round h with
            | none => simp [txStep, validateMain, hcand, htr, hhead, hle, hmain]
            | some mr =>
              by_cases hok : (mr.gasUsed.isSome && mr.effectiveGasPrice.isSome) = true
              · constructor
                · intro hemit
                  have hmr : mr = r := by
                    simp [txStep, validateMain, hcand, htr, hhead, hle, hmain, hok] at hemit
                    exact hemit
                  subst hmr
                  rw [Bool.and_eq_true] at hok
                  exact ⟨cr, bn, head, rfl, htr, rfl, hle, rfl, hok.1, hok.2⟩
                · rintro ⟨cr2, bn2, head2, hc2, ht2, hh2, hl2, hm2, hg2, hp2⟩
                  injection hm2 with hm2
                  subst hm2
                  simp [txStep, validateMain, hcand, htr, hhead, hle, hmain, hok]
              · constructor
                · intro hemit
                  exfalso
                  simp [txStep, validateMain, hcand, htr, hhead, hle, hmain, hok] at hemit
                · rintro ⟨cr2, bn2, head2, hc2, ht2, hh2, hl2, hm2, hg2, hp2⟩
                  exfalso
                  injection hm2 with hm2
                  subst hm2
                  exact hok (by rw [Bool.and_eq_true]; exact ⟨hg2, hp2⟩)
          · constructor
            · intro hemit
              exfalso
              simp [txStep, hcand, htr, hhead, hle] at hemit
            · rintro ⟨cr2, bn2, head2, hc2, ht2, hh2, hl2, hm2, hg2, hp2⟩
              exfalso
              injection hc2 with hc2
              subst hc2
              rw [htr] at ht2
              injection ht2 with ht2
              subst ht2
              injection hh2 with hh2
              subst hh2
              exact hle hl2
  · intro venv required round h r bn head h1 h2 h3 h4
    simp [voteStep, h1, h2, h3, h4]

/-- Witness for C2 amended at a concrete input: with required depth 1,
candidate inclusion at block 1, head 10 and a well-formed authoritative
receipt, the entry is emitted. -/
theorem c2_witness :
    (txStep confirmEnv 1 0 (0, { currentProviderIndex := 0, lastProviderChangeTime := 0 })
        "a").1 = EntryOutcome.emit mainFullReceipt :=
  (c2_removal_condition.1 confirmEnv 1 0 0
      { currentProviderIndex := 0, lastProviderChangeTime := 0 } "a" mainFullReceipt).mpr
    ⟨candReceiptFull, 1, 10, rfl, rfl, rfl, by decide, rfl, rfl, rfl⟩

/-! ## C9: the confirmation depth formula -/

/-- C9: in both trackers, once a candidate receipt with a truthy
inclusion block number bn is obtained and the same endpoint that served
the receipt reports head block height head, the transition of that entry
is decided by comparing requiredConfirmations against exactly
jsConfirmations head bn = max (head - bn + 1) 0; in transaction.js the
head is read from the very provider the rotator chose for the candidate
receipt fetch of that entry. -/
theorem c9_confirmation_depth_formula :
    (∀ (env : TrackEnv) (required round k : Nat) (rot : RotState) (h : TxHash)
        (r : Receipt) (bn head : Nat),
      env.candReceipt round
          (getNextPublicProvider env.numProviders (env.clock k) rot).1 h = some r →
      r.truthyBlockNumber = some bn →
      env.headBlock round
          (getNextPublicProvider env.numProviders (env.clock k) rot).1 = Except.ok head →
      (txStep env required round (k, rot) h).1 =
        (if (required : Int) ≤ jsConfirmations head bn then validateMain env round h
          else EntryOutcome.keep)) ∧
    (∀ (venv : VoteEnv) (required round : Nat) (h : TxHash) (r : Receipt) (bn head : Nat),
      venv.receipt round h = Except.ok (some r) →
      r.truthyBlockNumber = some bn →
      venv.headBlock round = Except.ok head →
      (voteStep venv required round () h).1 =
        (if (required : Int) ≤ jsConfirmations head bn then EntryOutcome.emit r
          else EntryOutcome.keep)) := by
  constructor
  · intro env required round k rot h r bn head hcand htr hhead
    by_cases hle : (required : Int) ≤ jsConfirmations head bn
    · simp [txStep, hcand, htr, hhead, hle]
    · simp [txStep, hcand, htr, hhead, hle]
  · intro venv required round h r bn head h1 h2 h3
    by_cases hle : (required : Int) ≤ jsConfirmations head bn
    · simp [voteStep, h1, h2, h3, hle]
    · simp [voteStep, h1, h2, h3, hle]

/-- Witness for C9 at a concrete input: required depth 5, inclusion
block 1, head 10. -/
theorem c9_witness :
    (txStep confirmEnv 5 0 (0, { currentProviderIndex := 0, lastProviderChangeTime := 0 })
        "a").1 =
      (if (5 : Int) ≤ jsConfirmations 10 1 then validateMain confirmEnv 0 "a"
        else EntryOutcome.keep) :=
  c9_confirmation_depth_formula.1 confirmEnv 5 0 0
    { currentProviderIndex := 0, lastProviderChangeTime := 0 } "a" candReceiptFull 1 10
    rfl rfl rfl

/-! ## C4: the loop drops no transaction and survives endpoint errors

The transaction.js half uses the strict-round machinery above.  The
vote.js half is settled against the small-step interleaving semantics
voteSmallStep / voteRun, whose invariant below identifies each input
transaction by the occurrence of its wallet index, as before. -/

/-- Invariant of the vote.js small-step loop: every input transaction is
still pending or already confirmed at least once; every pending entry,
every suspended callback and every confirmed entry stems from an input
transaction. -/
def VoteInv (txs : List TxRef) (cfg : VConfig) : Prop :=
  (∀ t ∈ txs,
    ((t.hash, ({ confirmations := 0, walletIndex := t.walletIndex } : TxState))
        ∈ cfg.states ∨
      t.walletIndex ∈ wiConfirmed cfg.confirmed)) ∧
  (∀ p ∈ cfg.states, ∃ t ∈ txs, p.1 = t.hash ∧ p.2.walletIndex = t.walletIndex) ∧
  (∀ c ∈ cfg.stale ++ cfg.current,
    ∃ t ∈ txs, c.hash = t.hash ∧ c.walletIndex = t.walletIndex) ∧
  (∀ e ∈ cfg.confirmed, ∃ t ∈ txs, e.walletIndex = t.walletIndex)

theorem voteInv_init (txs : List TxRef) (hnd : (txs.map TxRef.hash).Nodup) :
    VoteInv txs (voteInitConfig txs) := by
  refine ⟨?_, ?_, ?_, ?_⟩
  · intro t ht
    left
    show (t.hash, _) ∈ buildConfirmationStates txs
    rw [buildStates_eq_map txs hnd]
    exact List.mem_map_of_mem _ ht
  · intro p hp
    have hp2 : p ∈ buildConfirmationStates txs := hp
    rw [buildStates_eq_map txs hnd] at hp2
    obtain ⟨t, ht, hEq⟩ := List.mem_map.mp hp2
    refine ⟨t, ht, ?_, ?_⟩
    · rw [← hEq]
    · rw [← hEq]
  · intro c hc
    simp [voteInitConfig] at hc
  · intro e he
    simp [voteInitConfig] at he

theorem advanceCallback_suspended_eq (venv : VoteEnv) (required : Nat)
    (c c2 : VCallback)
    (h : advanceCallback venv required c = VCallbackResult.suspended c2) :
    c2.hash = c.hash ∧ c2.walletIndex = c.walletIndex := by
  obtain ⟨ch, cw, cr, cst⟩ := c
  cases cst with
  | fetchReceipt =>
    cases hr : venv.receipt cr ch with
    | error e => simp [advanceCallback, hr] at h
    | ok v =>
      cases v with
      | none => simp [advanceCallback, hr] at h
      | some r =>
        cases htr : r.truthyBlockNumber with
        | none => simp [advanceCallback, hr, htr] at h
        | some bn =>
          simp only [advanceCallback, hr, htr,
            VCallbackResult.suspended.injEq] at h
          rw [← h]
          exact ⟨rfl, rfl⟩
  | fetchBlock r bn =>
    cases hb : venv.headBlock cr with
    | error e => simp [advanceCallback, hb] at h
    | ok head =>
      by_cases hle : (required : Int) ≤ jsConfirmations head bn
      · simp [advanceCallback, hb, hle] at h
      · simp [advanceCallback, hb, hle] at h

theorem advanceCallback_confirm_eq (venv : VoteEnv) (required : Nat)
    (c : VCallback) (hh : TxHash) (e : ConfirmedEntry)
    (hadv : advanceCallback venv required c
      = VCallbackResult.fulfilled (some (hh, e))) :
    hh = c.hash ∧ e.walletIndex = c.walletIndex := by
  obtain ⟨ch, cw, cr, cst⟩ := c
  cases cst with
  | fetchReceipt =>
    cases hr : venv.receipt cr ch with
    | error e2 => simp [advanceCallback, hr] at hadv
    | ok v =>
      cases v with
      | none => simp [advanceCallback, hr] at hadv
      | some r =>
        cases htr : r.truthyBlockNumber with
        | none => simp [advanceCallback, hr, htr] at hadv
        | some bn => simp [advanceCallback, hr, htr] at hadv
  | fetchBlock r bn =>
    cases hb : venv.headBlock cr with
    | error e2 => simp [advanceCallback, hb] at hadv
    | ok head =>
      by_cases hle : (required : Int) ≤ jsConfirmations head bn
      · simp only [advanceCallback, hb, hle, if_true,
          VCallbackResult.fulfilled.injEq, Option.some.injEq, Prod.mk.injEq] at hadv
        obtain ⟨hh2, he2⟩ := hadv
        constructor
        · rw [← hh2]
        · rw [← he2]
      · simp [advanceCallback, hb, hle] at hadv

theorem voteInv_confirm_effect (txs : List TxRef)
    (hnd : (txs.map TxRef.hash).Nodup)
    (states : List (TxHash × TxState)) (confirmed : List ConfirmedEntry)
    (hh : TxHash) (e : ConfirmedEntry)
    (hstates : ∀ t ∈ txs,
      ((t.hash, ({ confirmations := 0, walletIndex := t.walletIndex } : TxState))
          ∈ states ∨
        t.walletIndex ∈ wiConfirmed confirmed))
    (hw : ∃ t ∈ txs, hh = t.hash ∧ e.walletIndex = t.walletIndex) :
    ∀ t ∈ txs,
      ((t.hash, ({ confirmations := 0, walletIndex := t.walletIndex } : TxState))
          ∈ states.filter (fun p => !(p.1 == hh)) ∨
        t.walletIndex ∈ wiConfirmed (confirmed ++ [e])) := by
  intro t ht
  rcases hstates t ht with hin | hconf
  · by_cases hhh : t.hash = hh
    · right
      obtain ⟨t2, ht2, hch, hcw⟩ := hw
      have ht12 : t = t2 :=
        List.inj_on_of_nodup_map hnd ht ht2 (by rw [hhh]; exact hch)
      rw [wiConfirmed_append]
      apply List.mem_append_right
      simp [wiConfirmed, hcw, ht12]
    · left
      rw [List.mem_filter]
      refine ⟨hin, ?_⟩
      simp [hhh]
  · right
    rw [wiConfirmed_append]
    exact List.mem_append_left _ hconf

theorem voteSmallStep_inv (venv : VoteEnv) (required : Nat) (txs : List TxRef)
    (hnd : (txs.map TxRef.hash).Nodup) (cfg : VConfig) (a : VAction)
    (hinv : VoteInv txs cfg) : VoteInv txs (voteSmallStep venv required cfg a) := by
  obtain ⟨h1, h2, h3, h4⟩ := hinv
  by_cases hd : cfg.done = true
  · have hstep : voteSmallStep venv required cfg a = cfg := by
      simp [voteSmallStep, hd]
    rw [hstep]
    exact ⟨h1, h2, h3, h4⟩
  · cases a with
    | advStale i =>
      cases hg : cfg.stale[i]? with
      | none =>
        have hstep : voteSmallStep venv required cfg (VAction.advStale i) = cfg := by
          simp [voteSmallStep, hd, hg]
        rw [hstep]
        exact ⟨h1, h2, h3, h4⟩
      | some c =>
        have hcmem : c ∈ cfg.stale ++ cfg.current :=
          List.mem_append_left _ (List.getElem?_mem hg)
        cases har : advanceCallback venv required c with
        | suspended c2 =>
          have hstep : voteSmallStep venv required cfg (VAction.advStale i)
              = { cfg with stale := cfg.stale.set i c2 } := by
            simp [voteSmallStep, hd, hg, har]
          rw [hstep]
          obtain ⟨hch, hcw⟩ := advanceCallback_suspended_eq venv required c c2 har
          refine ⟨h1, h2, ?_, h4⟩
          intro c3 hc3
          rcases List.mem_append.mp hc3 with hc3 | hc3
          · rcases List.mem_or_eq_of_mem_set hc3 with hc3 | hc3
            · exact h3 c3 (List.mem_append_left _ hc3)
            · subst hc3
              obtain ⟨t, ht, hth, htw⟩ := h3 c hcmem
              exact ⟨t, ht, by rw [hch]; exact hth, by rw [hcw]; exact htw⟩
          · exact h3 c3 (List.mem_append_right _ hc3)
        | threw =>
          have hstep : voteSmallStep venv required cfg (VAction.advStale i)
              = { cfg with stale := cfg.stale.eraseIdx i } := by
            simp [voteSmallStep, hd, hg, har]
          rw [hstep]
          refine ⟨h1, h2, ?_, h4⟩
          intro c3 hc3
          rcases List.mem_append.mp hc3 with hc3 | hc3
          · exact h3 c3 (List.mem_append_left _ (List.mem_of_mem_eraseIdx hc3))
          · exact h3 c3 (List.mem_append_right _ hc3)
        | fulfilled eff =>
          cases eff with
          | none =>
            have hstep : voteSmallStep venv required cfg (VAction.advStale i)
                = { cfg with stale := cfg.stale.eraseIdx i } := by
              simp [voteSmallStep, hd, hg, har]
            rw [hstep]
            refine ⟨h1, h2, ?_, h4⟩
            intro c3 hc3
            rcases List.mem_append.mp hc3 with hc3 | hc3
            · exact h3 c3 (List.mem_append_left _ (List.mem_of_mem_eraseIdx hc3))
            · exact h3 c3 (List.mem_append_right _ hc3)
          | some pr =>
            cases pr with
            | mk hh e =>
              have hstep : voteSmallStep venv required cfg (VAction.advStale i)
                  = { cfg with
                      stale := cfg.stale.eraseIdx i,
                      states := cfg.states.filter (fun p => !(p.1 == hh)),
                      confirmed := cfg.confirmed ++ [e] } := by
                simp [voteSmallStep, hd, hg, har]
              rw [hstep]
              obtain ⟨hch, hcw⟩ := advanceCallback_confirm_eq venv required c hh e har
              have hw : ∃ t ∈ txs, hh = t.hash ∧ e.walletIndex = t.walletIndex := by
                obtain ⟨t, ht, hth, htw⟩ := h3 c hcmem
                exact ⟨t, ht, by rw [hch]; exact hth, by rw [hcw]; exact htw⟩
              refine ⟨voteInv_confirm_effect txs hnd cfg.states cfg.confirmed hh e
                  h1 hw, ?_, ?_, ?_⟩
              · intro p hp
                exact h2 p (List.mem_of_mem_filter hp)
              · intro c3 hc3
                rcases List.mem_append.mp hc3 with hc3 | hc3
                · exact h3 c3 (List.mem_append_left _ (List.mem_of_mem_eraseIdx hc3))
                · exact h3 c3 (List.mem_append_right _ hc3)
              · intro e2 he2
                rcases List.mem_append.mp he2 with he2 | he2
                · exact h4 e2 he2
                · rw [List.mem_singleton] at he2
                  subst he2
                  obtain ⟨t, ht, _, htw⟩ := hw
                  exact ⟨t, ht, htw⟩
    | advCurrent i =>
      cases hg : cfg.current[i]? with
      | none =>
        have hstep : voteSmallStep venv required cfg (VAction.advCurrent i) = cfg := by
          simp [voteSmallStep, hd, hg]
        rw [hstep]
        exact ⟨h1, h2, h3, h4⟩
      | some c =>
        have hcmem : c ∈ cfg.stale ++ cfg.current :=
          List.mem_append_right _ (List.getElem?_mem hg)
        cases har : advanceCallback venv required c with
        | suspended c2 =>
          have hstep : voteSmallStep venv required cfg (VAction.advCurrent i)
              = { cfg with current := cfg.current.set i c2 } := by
            simp [voteSmallStep, hd, hg, har]
          rw [hstep]
          obtain ⟨hch, hcw⟩ := advanceCallback_suspended_eq venv required c c2 har
          refine ⟨h1, h2, ?_, h4⟩
          intro c3 hc3
          rcases List.mem_append.mp hc3 with hc3 | hc3
          · exact h3 c3 (List.mem_append_left _ hc3)
          · rcases List.mem_or_eq_of_mem_set hc3 with hc3 | hc3
            · exact h3 c3 (List.mem_append_right _ hc3)
            · subst hc3
              obtain ⟨t, ht, hth, htw⟩ := h3 c hcmem
              exact ⟨t, ht, by rw [hch]; exact hth, by rw [hcw]; exact htw⟩
        | threw =>
          have hstep : voteSmallStep venv required cfg (VAction.advCurrent i)
              = { cfg with current := cfg.current.eraseIdx i, rejected := true } := by
            simp [voteSmallStep, hd, hg, har]
          rw [hstep]
          refine ⟨h1, h2, ?_, h4⟩
          intro c3 hc3
          rcases List.mem_append.mp hc3 with hc3 | hc3
          · exact h3 c3 (List.mem_append_left _ hc3)
          · exact h3 c3 (List.mem_append_right _ (List.mem_of_mem_eraseIdx hc3))
        | fulfilled eff =>
          cases eff with
          | none =>
            have hstep : voteSmallStep venv required cfg (VAction.advCurrent i)
                = { cfg with current := cfg.current.eraseIdx i } := by
              simp [voteSmallStep, hd, hg, har]
            rw [hstep]
            refine ⟨h1, h2, ?_, h4⟩
            intro c3 hc3
            rcases List.mem_append.mp hc3 with hc3 | hc3
            · exact h3 c3 (List.mem_append_left _ hc3)
            · exact h3 c3 (List.mem_append_right _ (List.mem_of_mem_eraseIdx hc3))
          | some pr =>
            cases pr with
            | mk hh e =>
              have hstep : voteSmallStep venv required cfg (VAction.advCurrent i)
                  = { cfg with
                      current := cfg.current.eraseIdx i,
                      states := cfg.states.filter (fun p => !(p.1 == hh)),
                      confirmed := cfg.confirmed ++ [e] } := by
                simp [voteSmallStep, hd, hg, har]
              rw [hstep]
              obtain ⟨hch, hcw⟩ := advanceCallback_confirm_eq venv required c hh e har
              have hw : ∃ t ∈ txs, hh = t.hash ∧ e.walletIndex = t.walletIndex := by
                obtain ⟨t, ht, hth, htw⟩ := h3 c hcmem
                exact ⟨t, ht, by rw [hch]; exact hth, by rw [hcw]; exact htw⟩
              refine ⟨voteInv_confirm_effect txs hnd cfg.states cfg.confirmed hh e
                  h1 hw, ?_, ?_, ?_⟩
              · intro p hp
                exact h2 p (List.mem_of_mem_filter hp)
              · intro c3 hc3
                rcases List.mem_append.mp hc3 with hc3 | hc3
                · exact h3 c3 (List.mem_append_left _ hc3)
                · exact h3 c3
                    (List.mem_append_right _ (List.mem_of_mem_eraseIdx hc3))
              · intro e2 he2
                rcases List.mem_append.mp he2 with he2 | he2
                · exact h4 e2 he2
                · rw [List.mem_singleton] at he2
                  subst he2
                  obtain ⟨t, ht, _, htw⟩ := hw
                  exact ⟨t, ht, htw⟩
    | nextRound =>
      by_cases hs : (cfg.rejected || cfg.current.isEmpty) = true
      · by_cases he : cfg.states.isEmpty = true
        · have hstep : voteSmallStep venv required cfg VAction.nextRound
              = { cfg with done := true } := by
            simp [voteSmallStep, hd, hs, he]
          rw [hstep]
          exact ⟨h1, h2, h3, h4⟩
        · have hstep : voteSmallStep venv required cfg VAction.nextRound
              = { cfg with
                  stale := cfg.stale ++ cfg.current,
                  current := cfg.states.map (fun p =>
                    { hash := p.1, walletIndex := p.2.walletIndex,
                      round := cfg.round + 1, stage := VStage.fetchReceipt }),
                  rejected := false, round := cfg.round + 1 } := by
            simp [voteSmallStep, hd, hs, he]
          rw [hstep]
          refine ⟨h1, h2, ?_, h4⟩
          intro c3 hc3
          rcases List.mem_append.mp hc3 with hc3 | hc3
          · rcases List.mem_append.mp hc3 with hc3 | hc3
            · exact h3 c3 (List.mem_append_left _ hc3)
            · exact h3 c3 (List.mem_append_right _ hc3)
          · obtain ⟨p, hp, hEq⟩ := List.mem_map.mp hc3
            obtain ⟨t, ht, hth, htw⟩ := h2 p hp
            refine ⟨t, ht, ?_, ?_⟩
            · rw [← hEq]; exact hth
            · rw [← hEq]; exact htw
      · have hstep : voteSmallStep venv required cfg VAction.nextRound = cfg := by
          simp [voteSmallStep, hd, hs]
        rw [hstep]
        exact ⟨h1, h2, h3, h4⟩

theorem voteRun_inv (venv : VoteEnv) (required : Nat) (txs : List TxRef)
    (hnd : (txs.map TxRef.hash).Nodup) (acts : List VAction) :
    VoteInv txs (voteRun venv required txs acts) := by
  have hgen : ∀ (l : List VAction) (cfg : VConfig), VoteInv txs cfg →
      VoteInv txs (l.foldl (voteSmallStep venv required) cfg) := by
    intro l
    induction l with
    | nil => intro cfg h; exact h
    | cons a rest ih =>
      intro cfg h
      exact ih _ (voteSmallStep_inv venv required txs hnd cfg a h)
  exact hgen acts _ (voteInv_init txs hnd)

theorem voteSmallStep_adv_done (venv : VoteEnv) (required : Nat) (cfg : VConfig)
    (i : Nat) :
    (voteSmallStep venv required cfg (VAction.advStale i)).done = cfg.done ∧
    (voteSmallStep venv required cfg (VAction.advCurrent i)).done = cfg.done := by
  constructor
  · by_cases hd : cfg.done = true
    · simp [voteSmallStep, hd]
    · cases hg : cfg.stale[i]? with
      | none => simp [voteSmallStep, hd, hg]
      | some c =>
        cases har : advanceCallback venv required c with
        | suspended c2 => simp [voteSmallStep, hd, hg, har]
        | threw => simp [voteSmallStep, hd, hg, har]
        | fulfilled eff =>
          cases eff with
          | none => simp [voteSmallStep, hd, hg, har]
          | some pr =>
            cases pr with
            | mk hh e => simp [voteSmallStep, hd, hg, har]
  · by_cases hd : cfg.done = true
    · simp [voteSmallStep, hd]
    · cases hg : cfg.current[i]? with
      | none => simp [voteSmallStep, hd, hg]
      | some c =>
        cases har : advanceCallback venv required c with
        | suspended c2 => simp [voteSmallStep, hd, hg, har]
        | threw => simp [voteSmallStep, hd, hg, har]
        | fulfilled eff =>
          cases eff with
          | none => simp [voteSmallStep, hd, hg, har]
          | some pr =>
            cases pr with
            | mk hh e => simp [voteSmallStep, hd, hg, har]

theorem voteSmallStep_done_imp (venv : VoteEnv) (required : Nat) (cfg : VConfig)
    (a : VAction) (hd : cfg.done = false)
    (hdone : (voteSmallStep venv required cfg a).done = true) : cfg.states = [] := by
  cases a with
  | advStale i =>
    rw [(voteSmallStep_adv_done venv required cfg i).1, hd] at hdone
    cases hdone
  | advCurrent i =>
    rw [(voteSmallStep_adv_done venv required cfg i).2, hd] at hdone
    cases hdone
  | nextRound =>
    by_cases hs : (cfg.rejected || cfg.current.isEmpty) = true
    · by_cases he : cfg.states.isEmpty = true
      · exact List.isEmpty_iff.mp he
      · have hstep : voteSmallStep venv required cfg VAction.nextRound
            = { cfg with
                stale := cfg.stale ++ cfg.current,
                current := cfg.states.map (fun p =>
                  { hash := p.1, walletIndex := p.2.walletIndex,
                    round := cfg.round + 1, stage := VStage.fetchReceipt }),
                rejected := false, round := cfg.round + 1 } := by
          simp [voteSmallStep, hd, hs, he]
        rw [hstep] at hdone
        simp [hd] at hdone
    · have hstep : voteSmallStep venv required cfg VAction.nextRound = cfg := by
        simp [voteSmallStep, hd, hs]
      rw [hstep] at hdone
      rw [hd] at hdone
      cases hdone

/-- Receipts used by the overlapping-round counterexample. -/
def rcptT : Receipt :=
  { blockNumber := some 1, gasUsed := some 2, effectiveGasPrice := some 3, status := true }

def rcptU : Receipt :=
  { blockNumber := some 2, gasUsed := some 4, effectiveGasPrice := some 5, status := true }

/-- A provider behavior for which transaction u's receipt query throws in
round 1 and every other query succeeds with depth far past any small
requirement. -/
def overlapEnv : VoteEnv :=
  { receipt := fun round h =>
      if round = 1 ∧ h = "u" then Except.error ()
      else if h = "t" then Except.ok (some rcptT)
      else Except.ok (some rcptU),
    headBlock := fun _ => Except.ok 10 }

/-- The schedule of the counterexample: round 1 spawns callbacks for t
and u; u's receipt query throws, rejecting the round's Promise.all while
t's callback sits suspended at its getBlockNumber await; round 2
re-spawns both entries and confirms t; the stale round-1 callback for t
then resumes and confirms t a second time (its delete is a no-op, its
push is not); u confirms and the loop exits with an empty pending set. -/
def overlapSchedule : List VAction :=
  [VAction.nextRound, VAction.advCurrent 1, VAction.advCurrent 0, VAction.nextRound,
    VAction.advCurrent 0, VAction.advCurrent 0, VAction.advStale 0,
    VAction.advCurrent 0, VAction.advCurrent 0, VAction.nextRound]

/-- C4 counterexample: for the two-transaction input with distinct hashes
t (wallet 0) and u (wallet 1), the schedule above drives the vote.js loop
to exit with wallet 0's transaction present twice in the confirmed list,
refuting the claim that every input transaction is, at every point,
pending or confirmed exactly once and that the returned list has exactly
one entry per input transaction. -/
theorem c4_counterexample :
    ((([{ hash := "t", walletIndex := 0 }, { hash := "u", walletIndex := 1 }] :
        List TxRef).map TxRef.hash).Nodup) ∧
    (voteRun overlapEnv 1
        [{ hash := "t", walletIndex := 0 }, { hash := "u", walletIndex := 1 }]
        overlapSchedule).done = true ∧
    (voteRun overlapEnv 1
        [{ hash := "t", walletIndex := 0 }, { hash := "u", walletIndex := 1 }]
        overlapSchedule).confirmed =
      [{ receipt := rcptT, walletIndex := 0 }, { receipt := rcptT, walletIndex := 0 },
        { receipt := rcptU, walletIndex := 1 }] := by
  exact ⟨by decide, rfl, rfl⟩

/-- C4 amended: both loops terminate only when the pending set is empty
and endpoint errors never abort them.  In transaction.js, whose per-entry
code catches every throw so each round is a strict barrier, every input
transaction (distinct hashes) is at every point either pending or
confirmed exactly once, and on return the loop has emptied the pending
set with exactly one confirmed entry per input.  In vote.js, a thrown
provider call rejects the round's Promise.all while sibling callbacks
survive into later rounds, so a transaction can be confirmed more than
once; what holds there, under every schedule, is that no transaction is
dropped: resuming a callback never exits the loop, the loop exits only
from an empty pending set, each input transaction is at every point
still pending or confirmed at least once, every confirmed entry stems
from an input transaction, and once the pending set is empty every input
transaction has at least one confirmed entry. -/
theorem c4_no_transaction_dropped (env : TrackEnv) (venv : VoteEnv)
    (required fuel t0 : Nat) (txs : List TxRef)
    (hnd : (txs.map TxRef.hash).Nodup) :
    (∀ n round,
      (wiMeasure (genIter (txStep env required) n round
          (buildConfirmationStates txs, [],
            ((0 : Nat),
              ({ currentProviderIndex := 0, lastProviderChangeTime := t0 } :
                RotState))))).Perm
        (txs.map TxRef.walletIndex)) ∧
    (∀ out, waitForAllConfirmations env txs required fuel t0 = some out →
      (∃ n s2, n ≤ fuel ∧ genIter (txStep env required) n 0
          (buildConfirmationStates txs, [],
            ((0 : Nat),
              ({ currentProviderIndex := 0, lastProviderChangeTime := t0 } :
                RotState))) = ([], out, s2)) ∧
      (wiConfirmed out).Perm (txs.map TxRef.walletIndex)) ∧
    (∀ round k rot h,
      env.headBlock round (getNextPublicProvider env.numProviders (env.clock k) rot).1
          = Except.error () →
      (txStep env required round (k, rot) h).1 = EntryOutcome.keep) ∧
    (∀ (cfg : VConfig) (i : Nat),
      (voteSmallStep venv required cfg (VAction.advStale i)).done = cfg.done ∧
      (voteSmallStep venv required cfg (VAction.advCurrent i)).done = cfg.done) ∧
    (∀ (cfg : VConfig) (a : VAction), cfg.done = false →
      (voteSmallStep venv required cfg a).done = true → cfg.states = []) ∧
    (∀ acts : List VAction,
      (∀ t ∈ txs,
        ((t.hash, ({ confirmations := 0, walletIndex := t.walletIndex } : TxState))
            ∈ (voteRun venv required txs acts).states ∨
          t.walletIndex ∈ wiConfirmed (voteRun venv required txs acts).confirmed)) ∧
      (∀ e ∈ (voteRun venv required txs acts).confirmed,
        ∃ t ∈ txs, e.walletIndex = t.walletIndex)) ∧
    (∀ acts : List VAction, (voteRun venv required txs acts).states = [] →
      ∀ t ∈ txs,
        t.walletIndex ∈ wiConfirmed (voteRun venv required txs acts).confirmed) := by
  have hinit : ∀ {σ : Type} (s : σ),
      wiMeasure (buildConfirmationStates txs, ([] : List ConfirmedEntry), s)
        = txs.map TxRef.walletIndex := by
    intro σ s
    simp [wiMeasure, wiConfirmed, wiPending_buildStates txs hnd]
  refine ⟨?_, ?_, ?_, ?_, ?_, ?_, ?_⟩
  · intro n round
    have hp := genIter_perm (txStep env required) n round
      (buildConfirmationStates txs, [],
        ((0 : Nat), { currentProviderIndex := 0, lastProviderChangeTime := t0 }))
    rwa [hinit] at hp
  · intro out hout
    obtain ⟨n, s2, hn, hiter⟩ := loopGen_eq_some (txStep env required) fuel 0
      ((0 : Nat), { currentProviderIndex := 0, lastProviderChangeTime := t0 })
      (buildConfirmationStates txs) [] out hout
    refine ⟨⟨n, s2, hn, hiter⟩, ?_⟩
    have hp := genIter_perm (txStep env required) n 0
      (buildConfirmationStates txs, [],
        ((0 : Nat), { currentProviderIndex := 0, lastProviderChangeTime := t0 }))
    rw [hinit, hiter] at hp
    simpa [wiMeasure] using hp
  · intro round k rot h hErr
    cases hcand : env.candReceipt round
        (getNextPublicProvider env.numProviders (env.clock k) rot).1 h with
    | none => simp [txStep, hcand]
    | some r =>
      cases htr : r.truthyBlockNumber with
      | none => simp [txStep, hcand, htr]
      | some bn => simp [txStep, hcand, htr, hErr]
  · intro cfg i
    exact voteSmallStep_adv_done venv required cfg i
  · intro cfg a hdf hdt
    exact voteSmallStep_done_imp venv required cfg a hdf hdt
  · intro acts
    obtain ⟨j1, _, _, j4⟩ := voteRun_inv venv required txs hnd acts
    exact ⟨j1, j4⟩
  · intro acts hempty t ht
    obtain ⟨j1, _, _, _⟩ := voteRun_inv venv required txs hnd acts
    rcases j1 t ht with hin | hconf
    · rw [hempty] at hin
      cases hin
    · exact hconf

/-- Witness for C4 amended: under the overlapping-round schedule that
confirms wallet 0's transaction twice, the loop still exits with wallet
0 owning at least one confirmed entry. -/
theorem c4_witness :
    ({ hash := "t", walletIndex := 0 } : TxRef).walletIndex ∈
      wiConfirmed (voteRun overlapEnv 1
        [{ hash := "t", walletIndex := 0 }, { hash := "u", walletIndex := 1 }]
        overlapSchedule).confirmed :=
  (c4_no_transaction_dropped trivialTrackEnv overlapEnv 1 1 0
      [{ hash := "t", walletIndex := 0 }, { hash := "u", walletIndex := 1 }]
      (by decide)).2.2.2.2.2.2 overlapSchedule rfl
    { hash := "t", walletIndex := 0 } (List.mem_cons_self _ _)

/-! ## C10: duplicate hashes collapse in the pending Map -/

/-- C10: the pending state is keyed by transaction hash with JavaScript
Map semantics, so two input entries sharing a hash collapse to a single
state carrying the later entry's wallet index; the keys of the built map
are always distinct; and a run over such a duplicate pair can only ever
return a single confirmed entry, bearing the later wallet index, so the
earlier duplicate's wallet receives no confirmed receipt. -/
theorem c10_duplicate_hash_collapse (h : TxHash) (w1 w2 : Nat) (env : TrackEnv)
    (required fuel t0 : Nat) :
    buildConfirmationStates
        [{ hash := h, walletIndex := w1 }, { hash := h, walletIndex := w2 }]
      = [(h, { confirmations := 0, walletIndex := w2 })] ∧
    (∀ txs : List TxRef, ((buildConfirmationStates txs).map Prod.fst).Nodup) ∧
    (∀ out, waitForAllConfirmations env
        [{ hash := h, walletIndex := w1 }, { hash := h, walletIndex := w2 }]
        required fuel t0 = some out →
      ∃ r, out = [{ receipt := r, walletIndex := w2 }]) := by
  have hbuild : buildConfirmationStates
      [{ hash := h, walletIndex := w1 }, { hash := h, walletIndex := w2 }]
      = [(h, { confirmations := 0, walletIndex := w2 })] := by
    simp [buildConfirmationStates, mapSet]
  refine ⟨hbuild, buildStates_keys_nodup, ?_⟩
  intro out hout
  obtain ⟨n, s2, hn, hiter⟩ := loopGen_eq_some (txStep env required) fuel 0
    ((0 : Nat), { currentProviderIndex := 0, lastProviderChangeTime := t0 })
    (buildConfirmationStates
      [{ hash := h, walletIndex := w1 }, { hash := h, walletIndex := w2 }]) [] out hout
  have hp := genIter_perm (txStep env required) n 0
    (buildConfirmationStates
      [{ hash := h, walletIndex := w1 }, { hash := h, walletIndex := w2 }], [],
      ((0 : Nat), { currentProviderIndex := 0, lastProviderChangeTime := t0 }))
  rw [hiter, hbuild] at hp
  have hsingle : wiConfirmed out = [w2] := by
    apply List.perm_singleton.mp
    simpa [wiMeasure, wiPending, wiConfirmed] using hp
  cases out with
  | nil => simp [wiConfirmed] at hsingle
  | cons e rest =>
    cases rest with
    | nil =>
      refine ⟨e.receipt, ?_⟩
      simp only [wiConfirmed, List.map] at hsingle
      have hw : e.walletIndex = w2 := by
        injection hsingle
      cases e with
      | mk rc wi =>
        simp only at hw
        rw [hw]
    | cons e2 rest2 => simp [wiConfirmed] at hsingle

/-- Witness for C10 at a concrete input: with duplicate hash entries for
wallets 1 and 2, only wallet 2 receives the confirmed receipt. -/
theorem c10_witness :
    ∃ r, [{ receipt := mainFullReceipt, walletIndex := 2 }]
        = [({ receipt := r, walletIndex := 2 } : ConfirmedEntry)] :=
  (c10_duplicate_hash_collapse "a" 1 2 confirmEnv 1 1 0).2.2
    [{ receipt := mainFullReceipt, walletIndex := 2 }] rfl

end S3
